import Mathlib

/-!
Verification of the asynchronous remote-job orchestration layer of the
5Novlab repository: the two-stage phylogeny pipeline (Clustal Omega
alignment chained into Simple Phylogeny), its base64url/JSON job-state
codec, the remote job client helpers, and the fetch-with-timeout
primitives.

The embedding is shallow: each TypeScript function of the pipeline is
translated into an executable Lean definition.  Network I/O is modelled
by an explicit environment mapping each outbound request to the HTTP
response observed for it, and every workflow function additionally
returns the ordered list of requests it issued.  JavaScript strings are
modelled as Lean strings (sequences of Unicode scalar values); JSON
numbers are modelled as integers (the pipeline itself only ever reads
and writes the integer tag `version: 1`); object field order is
modelled as insertion order.
-/

/-! ### JavaScript string primitives -/

/-- The character class removed by JavaScript `String.prototype.trim`
(ECMAScript WhiteSpace and LineTerminator code points). -/
def isJsSpace (c : Char) : Bool :=
  let n := c.toNat
  n == 9 || n == 10 || n == 11 || n == 12 || n == 13 || n == 32 ||
  n == 160 || n == 0x1680 || (0x2000 ≤ n && n ≤ 0x200A) ||
  n == 0x2028 || n == 0x2029 || n == 0x202F || n == 0x205F ||
  n == 0x3000 || n == 0xFEFF

/-- JavaScript `String.prototype.trim`. -/
def jsTrim (s : String) : String :=
  ⟨((s.data.dropWhile isJsSpace).reverse.dropWhile isJsSpace).reverse⟩

/-- ASCII lower-casing, as applied by `toLowerCase` to the method
selector strings the handler compares against `'clustalo'`. -/
def jsToLower (s : String) : String :=
  ⟨s.data.map Char.toLower⟩

/-! ### HTTP model

A response is modelled by its status code, body text and status text;
`fetch`'s `response.ok` is `status` in `[200, 299]`. -/

structure HttpResponse where
  status : Nat
  body : String
  statusText : String := ""
deriving DecidableEq, Repr

/-- `response.ok` of the Fetch API. -/
def HttpResponse.ok (r : HttpResponse) : Bool :=
  200 ≤ r.status && r.status ≤ 299

/-! ### Resilient fetch (src/components/PDBViewer.tsx, `fetchWithTimeout`)

The outcome of each underlying `fetch` attempt is supplied by an oracle
indexed by attempt number: either an HTTP response arrived, or the call
rejected with an `AbortError` (local timeout), a `TypeError`
(network-level failure), or some other error. -/

inductive AttemptOutcome where
  | resp (status : Nat)
  | abortTimeout
  | networkFail
  | otherFail
deriving DecidableEq, Repr

/-- What a `fetchWithTimeout` call produces: a response handed back to
the caller, a rethrown error, or the defensive retries-exhausted error
after the attempt loop ends. -/
inductive FetchResult where
  | response (status : Nat)
  | threwAbort
  | threwNetwork
  | threwOther
  | exhausted
deriving DecidableEq, Repr

/-- The retryable-status test of PDBViewer's `fetchWithTimeout`:
`status === 408 || status === 429 || status >= 500`. -/
def retryableStatus (status : Nat) : Bool :=
  status == 408 || status == 429 || 500 ≤ status

/-- The attempt loop of PDBViewer's `fetchWithTimeout`, from attempt
number `attempt` while `fuel` loop iterations remain (the loop header
`for attempt in 0..retries` admits exactly `retries + 1 - attempt`
further iterations, so running out of fuel is exactly the loop ending).
Returns the result together with the number of attempts performed from
this point on. -/
def pdbFetchFrom (oracle : Nat → AttemptOutcome) (retries : Nat) :
    Nat → Nat → FetchResult × Nat
  | _, 0 => (.exhausted, 0)
  | attempt, fuel + 1 =>
    match oracle attempt with
    | .resp s =>
        if !(200 ≤ s && s ≤ 299) && attempt < retries && retryableStatus s then
          let (r, n) := pdbFetchFrom oracle retries (attempt + 1) fuel
          (r, n + 1)
        else
          (.response s, 1)
    | .abortTimeout =>
        if attempt < retries then
          let (r, n) := pdbFetchFrom oracle retries (attempt + 1) fuel
          (r, n + 1)
        else (.threwAbort, 1)
    | .networkFail =>
        if attempt < retries then
          let (r, n) := pdbFetchFrom oracle retries (attempt + 1) fuel
          (r, n + 1)
        else (.threwNetwork, 1)
    | .otherFail => (.threwOther, 1)

/-- PDBViewer's `fetchWithTimeout` with its default retry budget
(`retries = 1`): result and total number of attempts. -/
def pdbFetchWithTimeout (oracle : Nat → AttemptOutcome) (retries : Nat := 1) :
    FetchResult × Nat :=
  pdbFetchFrom oracle retries 0 (retries + 1)

/-- The phylogeny pipeline's own `fetchWithTimeout`
(src/unnamed/part_003): it adds an abort timer but performs exactly one
`fetch` call, with no retry loop. -/
def phyloFetchWithTimeout (oracle : Nat → AttemptOutcome) : FetchResult × Nat :=
  (match oracle 0 with
    | .resp s => .response s
    | .abortTimeout => .threwAbort
    | .networkFail => .threwNetwork
    | .otherFail => .threwOther, 1)

/-! ### Remote job client helpers (src/unnamed/part_003)

Each helper is modelled as the pure function from the HTTP response it
observed to its return value, `Except` carrying the thrown error
message. -/

/-- `getJobStatus` applied to the response of `GET {base}/status/{id}`:
404 is `PENDING`, any other non-success throws, an empty (trimmed)
success body is `PENDING`, and otherwise the trimmed body is returned
verbatim (the source performs an unchecked cast `body as PhyloStatus`). -/
def getJobStatus (jobId : String) (r : HttpResponse) : Except String String :=
  if r.status = 404 then .ok "PENDING"
  else
    let body := jsTrim r.body
    if !r.ok then
      .error ("Failed to obtain status for job " ++ jobId ++
        ". EMBL-EBI responded with " ++ toString r.status ++ ": " ++
        (if body = "" then r.statusText else body))
    else if body = "" then .ok "PENDING"
    else .ok body

/-- Shared shape of `submitClustalJob` / `submitSimplePhylogenyJob`
applied to the `POST {base}/run` response: throws on non-success or an
empty trimmed body, otherwise returns the trimmed body (the job id). -/
def submitRun (label : String) (r : HttpResponse) : Except String String :=
  let body := jsTrim r.body
  if !r.ok then
    .error ("EMBL-EBI " ++ label ++ " submission failed: " ++
      (if body = "" then r.statusText else body))
  else if body = "" then
    .error (label ++ " submission did not return a job identifier.")
  else .ok body

/-- Shared shape of `fetchClustalAlignment` / `fetchClustalTree` /
`fetchSimplePhylogenyTree` applied to the result-endpoint response:
throws on non-success or a blank body, otherwise returns the body
(untrimmed). -/
def fetchResultBody (failLabel emptyMsg : String) (r : HttpResponse) :
    Except String String :=
  if !r.ok then
    .error ("Failed to download " ++ failLabel ++ ": " ++
      (if r.body = "" then r.statusText else r.body))
  else if jsTrim r.body = "" then
    .error emptyMsg
  else .ok r.body

/-- `fetchClustalAlignment` as a function of the observed response. -/
def fetchClustalAlignment (r : HttpResponse) : Except String String :=
  fetchResultBody "Clustal Omega alignment"
    "Clustal Omega alignment result was empty." r

/-- `fetchClustalTree` as a function of the observed response. -/
def fetchClustalTree (r : HttpResponse) : Except String String :=
  fetchResultBody "Clustal Omega phylogenetic tree"
    "Clustal Omega tree output was empty." r

/-- `fetchSimplePhylogenyTree` as a function of the observed response. -/
def fetchSimplePhylogenyTree (r : HttpResponse) : Except String String :=
  fetchResultBody "Simple Phylogeny tree"
    "Simple Phylogeny tree output was empty." r

/-- `submitClustalJob` as a function of the observed response. -/
def submitClustalJob (r : HttpResponse) : Except String String :=
  submitRun "Clustal Omega" r

/-- `submitSimplePhylogenyJob` as a function of the observed response. -/
def submitSimplePhylogenyJob (r : HttpResponse) : Except String String :=
  submitRun "Simple Phylogeny" r

/-! ### JSON value model

JavaScript values flowing through `JSON.parse` / `JSON.stringify` and
the spread/property operations of the pipeline.  Numbers are modelled
as integers and object field order as insertion order (`JSON.parse`
keeps the last value of a duplicated key at its first position, which
`objUpsert` reproduces). -/

inductive Json where
  | null : Json
  | bool : Bool → Json
  | num : Int → Json
  | str : String → Json
  | arr : List Json → Json
  | obj : List (String × Json) → Json

/-- JavaScript property read `value[k]`: `undefined` (`none`) unless the
value is an object carrying the key. -/
def jsGetField : Json → String → Option Json
  | .obj fs, k => (fs.find? (fun p => p.1 == k)).map (·.2)
  | _, _ => none

/-- Insert-or-overwrite preserving first position, the semantics both of
a duplicate key met by `JSON.parse` and of `{ ...o, k: v }`. -/
def objUpsert (fs : List (String × Json)) (k : String) (v : Json) :
    List (String × Json) :=
  if fs.any (fun p => p.1 == k) then
    fs.map (fun p => if p.1 == k then (k, v) else p)
  else fs ++ [(k, v)]

/-- JavaScript truthiness of a JSON-shaped value. -/
def jsTruthy : Json → Bool
  | .null => false
  | .bool b => b
  | .num n => n != 0
  | .str s => s != ""
  | .arr _ => true
  | .obj _ => true

/-- `true` when the field is falsy or absent — the test
`if (!state.simpleJobId)`. -/
def jsFalsyField (v : Option Json) : Bool :=
  match v with
  | none => true
  | some j => !jsTruthy j

/-- Is the field a string equal to `v`?  (strict equality against a
string literal, e.g. `state.stage === 'alignment'`). -/
def isFieldStr (j : Json) (k v : String) : Bool :=
  match jsGetField j k with
  | some (.str s) => s == v
  | _ => false

/-- Is the field a number equal to `n`? (`parsed.version === 1`). -/
def isFieldNum (j : Json) (k : String) (n : Int) : Bool :=
  match jsGetField j k with
  | some (.num m) => m == n
  | _ => false

/-! ### Decimal integers (JavaScript number-to-string for integers) -/

/-- Decimal digit character. -/
def digitChar (n : Nat) : Char := Char.ofNat (48 + n)

/-- The decimal digits of a natural number, most significant first. -/
def natToChars (n : Nat) : List Char :=
  if _h : n < 10 then [digitChar n]
  else natToChars (n / 10) ++ [digitChar (n % 10)]
decreasing_by exact Nat.div_lt_self (by omega) (by omega)

/-- JavaScript string conversion of an integer. -/
def intToChars (i : Int) : List Char :=
  if i < 0 then '-' :: natToChars i.natAbs else natToChars i.natAbs

/-- String conversion of a JSON-shaped value, as performed by a
template literal: `undefined` for an absent property, `[object Object]`
for objects, comma-joined elements for arrays. -/
def jsToString : Option Json → String
  | none => "undefined"
  | some .null => "null"
  | some (.bool true) => "true"
  | some (.bool false) => "false"
  | some (.num n) => ⟨intToChars n⟩
  | some (.str s) => s
  | some (.arr _) => "[array]"
  | some (.obj _) => "[object Object]"

/-! ### base64url (Node `Buffer.toString('base64url')` /
`Buffer.from(_, 'base64url')`)

Encoding is unpadded base64url.  Node's decoder never throws: it
accepts both the standard and the url-safe alphabet, ignores `=` and
any character outside the alphabet, and drops a dangling trailing
sextet. -/

/-- The base64url alphabet. -/
def b64Char (v : Nat) : Char :=
  if v < 26 then Char.ofNat (65 + v)
  else if v < 52 then Char.ofNat (97 + (v - 26))
  else if v < 62 then Char.ofNat (48 + (v - 52))
  else if v = 62 then '-'
  else '_'

/-- Sextet value of a character, `none` for characters the decoder
ignores. -/
def b64Val (c : Char) : Option Nat :=
  let n := c.toNat
  if 65 ≤ n && n ≤ 90 then some (n - 65)
  else if 97 ≤ n && n ≤ 122 then some (26 + (n - 97))
  else if 48 ≤ n && n ≤ 57 then some (52 + (n - 48))
  else if c == '-' || c == '+' then some 62
  else if c == '_' || c == '/' then some 63
  else none

/-- Unpadded base64url encoding of a byte list. -/
def b64EncodeBytes : List Nat → List Char
  | [] => []
  | [b0] => [b64Char (b0 / 4), b64Char (b0 % 4 * 16)]
  | [b0, b1] => [b64Char (b0 / 4), b64Char (b0 % 4 * 16 + b1 / 16),
      b64Char (b1 % 16 * 4)]
  | b0 :: b1 :: b2 :: rest =>
      b64Char (b0 / 4) :: b64Char (b0 % 4 * 16 + b1 / 16) ::
      b64Char (b1 % 16 * 4 + b2 / 64) :: b64Char (b2 % 64) ::
      b64EncodeBytes rest

/-- Byte list encoded by a list of sextets (a dangling single sextet is
dropped, as Node does). -/
def b64DecodeSextets : List Nat → List Nat
  | s0 :: s1 :: s2 :: s3 :: rest =>
      (s0 * 4 + s1 / 16) :: (s1 % 16 * 16 + s2 / 4) :: (s2 % 4 * 64 + s3) ::
      b64DecodeSextets rest
  | [s0, s1, s2] => [s0 * 4 + s1 / 16, s1 % 16 * 16 + s2 / 4]
  | [s0, s1] => [s0 * 4 + s1 / 16]
  | _ => []

/-- `Buffer.from(token, 'base64url')`. -/
def b64urlDecode (s : String) : List Nat :=
  b64DecodeSextets (s.data.filterMap b64Val)

/-- `Buffer.from(text).toString('base64url')` given the UTF-8 bytes. -/
def b64urlEncode (bs : List Nat) : String :=
  ⟨b64EncodeBytes bs⟩

/-! ### UTF-8 (Node `Buffer.from(string)` / `Buffer.toString('utf8')`)

Encoding of Lean strings (valid Unicode scalar values) is standard
UTF-8.  Decoding is total, as `toString('utf8')` is: an invalid lead or
continuation byte yields U+FFFD and decoding resumes at the next byte
(the replacement-character count on invalid input is a simplification;
decoding is exact on all valid UTF-8). -/

/-- UTF-8 bytes of one scalar value. -/
def utf8EncodeChar (c : Char) : List Nat :=
  let n := c.toNat
  if n < 0x80 then [n]
  else if n < 0x800 then [0xC0 + n / 64, 0x80 + n % 64]
  else if n < 0x10000 then
    [0xE0 + n / 4096, 0x80 + n / 64 % 64, 0x80 + n % 64]
  else
    [0xF0 + n / 262144, 0x80 + n / 4096 % 64, 0x80 + n / 64 % 64,
     0x80 + n % 64]

/-- UTF-8 bytes of a string. -/
def utf8Encode (s : String) : List Nat :=
  s.data.foldr (fun c acc => utf8EncodeChar c ++ acc) []

/-- Is `b` a continuation byte? -/
def isCont (b : Nat) : Bool := 0x80 ≤ b && b ≤ 0xBF

/-- The replacement character. -/
def replChar : Char := Char.ofNat 0xFFFD

/-- Read one byte. -/
def take1 : List Nat → Option (Nat × List Nat)
  | b :: r => some (b, r)
  | [] => none

/-- Read two bytes. -/
def take2 : List Nat → Option (Nat × Nat × List Nat)
  | b1 :: b2 :: r => some (b1, b2, r)
  | _ => none

/-- Read three bytes. -/
def take3 : List Nat → Option (Nat × Nat × Nat × List Nat)
  | b1 :: b2 :: b3 :: r => some (b1, b2, b3, r)
  | _ => none

/-- Total UTF-8 decoding of a byte list.  `fuel` only serves structural
termination: every step consumes at least one byte and exactly one unit
of fuel, so fuel equal to the byte count never runs out. -/
def utf8DecodeGo : Nat → List Nat → List Char
  | 0, _ => []
  | _, [] => []
  | fuel + 1, b0 :: rest =>
    if b0 < 0x80 then Char.ofNat b0 :: utf8DecodeGo fuel rest
    else if 0xC2 ≤ b0 && b0 ≤ 0xDF then
      match take1 rest with
      | some (b1, r2) =>
        if isCont b1 then
          Char.ofNat ((b0 - 0xC0) * 64 + (b1 - 0x80)) :: utf8DecodeGo fuel r2
        else replChar :: utf8DecodeGo fuel rest
      | none => replChar :: utf8DecodeGo fuel rest
    else if 0xE0 ≤ b0 && b0 ≤ 0xEF then
      match take2 rest with
      | some (b1, b2, r3) =>
        if isCont b1 && isCont b2 then
          let v := (b0 - 0xE0) * 4096 + (b1 - 0x80) * 64 + (b2 - 0x80)
          if 0x800 ≤ v && !(0xD800 ≤ v && v ≤ 0xDFFF) then
            Char.ofNat v :: utf8DecodeGo fuel r3
          else replChar :: utf8DecodeGo fuel rest
        else replChar :: utf8DecodeGo fuel rest
      | none => replChar :: utf8DecodeGo fuel rest
    else if 0xF0 ≤ b0 && b0 ≤ 0xF4 then
      match take3 rest with
      | some (b1, b2, b3, r4) =>
        if isCont b1 && isCont b2 && isCont b3 then
          let v := (b0 - 0xF0) * 262144 + (b1 - 0x80) * 4096 +
            (b2 - 0x80) * 64 + (b3 - 0x80)
          if 0x10000 ≤ v && v ≤ 0x10FFFF then
            Char.ofNat v :: utf8DecodeGo fuel r4
          else replChar :: utf8DecodeGo fuel rest
        else replChar :: utf8DecodeGo fuel rest
      | none => replChar :: utf8DecodeGo fuel rest
    else replChar :: utf8DecodeGo fuel rest

/-- Total UTF-8 decoding of a byte list. -/
def utf8DecodeChars (bs : List Nat) : List Char :=
  utf8DecodeGo bs.length bs

/-- `Buffer.from(bytes).toString('utf8')`. -/
def utf8Decode (bs : List Nat) : String :=
  ⟨utf8DecodeChars bs⟩

/-! ### JSON text: `JSON.stringify` -/

/-- Lowercase hexadecimal digit. -/
def hexDigit (n : Nat) : Char :=
  if n < 10 then Char.ofNat (48 + n) else Char.ofNat (87 + n)

/-- `JSON.stringify`'s escaping of one character: `"` and `\`
backslash-escaped, the five short control escapes, `\u00xx` for the
remaining control characters, everything else literal. -/
def escapeChar (c : Char) : List Char :=
  if c = '"' then ['\\', '"']
  else if c = '\\' then ['\\', '\\']
  else if c.toNat = 8 then ['\\', 'b']
  else if c.toNat = 9 then ['\\', 't']
  else if c.toNat = 10 then ['\\', 'n']
  else if c.toNat = 12 then ['\\', 'f']
  else if c.toNat = 13 then ['\\', 'r']
  else if c.toNat < 32 then
    ['\\', 'u', '0', '0', hexDigit (c.toNat / 16), hexDigit (c.toNat % 16)]
  else [c]

/-- Escape every character of a list. -/
def escapeChars (cs : List Char) : List Char :=
  cs.foldr (fun c acc => escapeChar c ++ acc) []

/-- A JSON string literal for `s`. -/
def jsonQuoteChars (s : String) : List Char :=
  '"' :: (escapeChars s.data ++ ['"'])

mutual

/-- The character stream `JSON.stringify` produces for a value
(no replacer, no indent: compact output). -/
def jsonStringifyChars : Json → List Char
  | .null => ['n', 'u', 'l', 'l']
  | .bool false => ['f', 'a', 'l', 's', 'e']
  | .bool true => ['t', 'r', 'u', 'e']
  | .num n => intToChars n
  | .str s => jsonQuoteChars s
  | .arr xs => '[' :: (elemsChars xs ++ [']'])
  | .obj fs => '{' :: (membersChars fs ++ ['}'])

/-- Comma-separated stringification of array elements. -/
def elemsChars : List Json → List Char
  | [] => []
  | [x] => jsonStringifyChars x
  | x :: y :: rest => jsonStringifyChars x ++ ',' :: elemsChars (y :: rest)

/-- Comma-separated stringification of object members. -/
def membersChars : List (String × Json) → List Char
  | [] => []
  | [(k, v)] => jsonQuoteChars k ++ ':' :: jsonStringifyChars v
  | (k, v) :: m :: rest =>
      jsonQuoteChars k ++ ':' :: jsonStringifyChars v ++ ',' :: membersChars (m :: rest)

end

/-- `JSON.stringify`. -/
def jsonStringify (j : Json) : String :=
  ⟨jsonStringifyChars j⟩

/-! ### JSON text: `JSON.parse`

A recursive-descent parser over the character list, returning `none`
where `JSON.parse` throws.  `fuel` only serves structural termination:
a successful parse of a text of `n` characters performs fewer than
`n + 1` recursive entries, so the fuel chosen by `jsonParse` never runs
out.  Numbers are restricted to integers (the pipeline only writes
`version: 1`); a lone surrogate escape denotes U+FFFD (Lean strings
cannot carry lone surrogates). -/

/-- The JSON insignificant whitespace class. -/
def isJsonWs (c : Char) : Bool :=
  c == ' ' || c == '\t' || c == '\n' || c == '\r'

/-- Skip insignificant whitespace. -/
def skipWs (cs : List Char) : List Char :=
  cs.dropWhile isJsonWs

/-- ASCII decimal digit test. -/
def isDigitCh (c : Char) : Bool :=
  48 ≤ c.toNat && c.toNat ≤ 57

/-- Value of a hexadecimal digit character. -/
def hexVal (c : Char) : Option Nat :=
  let n := c.toNat
  if 48 ≤ n && n ≤ 57 then some (n - 48)
  else if 97 ≤ n && n ≤ 102 then some (n - 87)
  else if 65 ≤ n && n ≤ 70 then some (n - 55)
  else none

/-- Numeric value of a digit list, most significant first. -/
def digitsToNat (ds : List Char) : Nat :=
  ds.foldl (fun a c => a * 10 + (c.toNat - 48)) 0

/-- Parse a non-empty run of decimal digits. -/
def parseDigits (cs : List Char) : Option (Nat × List Char) :=
  let ds := cs.takeWhile isDigitCh
  if ds.isEmpty then none
  else some (digitsToNat ds, cs.dropWhile isDigitCh)

/-- Parse an integer JSON number. -/
def parseNumber : List Char → Option (Int × List Char)
  | [] => none
  | c :: cs =>
    if c = '-' then (parseDigits cs).map (fun p => (-(p.1 : Int), p.2))
    else (parseDigits (c :: cs)).map (fun p => ((p.1 : Int), p.2))

/-- Decode one backslash escape of a JSON string literal, the
backslash already consumed: the short escapes, and `\uXXXX` with a
valid surrogate pair combined into its code point and an unpaired
surrogate denoting U+FFFD (Lean strings cannot carry lone
surrogates). -/
def parseEscape : List Char → Option (Char × List Char)
  | '"' :: r => some ('"', r)
  | '\\' :: r => some ('\\', r)
  | '/' :: r => some ('/', r)
  | 'b' :: r => some (Char.ofNat 8, r)
  | 'f' :: r => some (Char.ofNat 12, r)
  | 'n' :: r => some (Char.ofNat 10, r)
  | 'r' :: r => some (Char.ofNat 13, r)
  | 't' :: r => some (Char.ofNat 9, r)
  | 'u' :: h1 :: h2 :: h3 :: h4 :: r =>
    match hexVal h1, hexVal h2, hexVal h3, hexVal h4 with
    | some a, some b, some c1, some d =>
      let v := a * 4096 + b * 256 + c1 * 16 + d
      if 0xD800 ≤ v && v ≤ 0xDBFF then
        match r with
        | '\\' :: 'u' :: g1 :: g2 :: g3 :: g4 :: r2 =>
          match hexVal g1, hexVal g2, hexVal g3, hexVal g4 with
          | some a2, some b2, some c2, some d2 =>
            let w := a2 * 4096 + b2 * 256 + c2 * 16 + d2
            if 0xDC00 ≤ w && w ≤ 0xDFFF then
              some (Char.ofNat (0x10000 + (v - 0xD800) * 1024 + (w - 0xDC00)), r2)
            else some (replChar, r)
          | _, _, _, _ => some (replChar, r)
        | _ => some (replChar, r)
      else if 0xDC00 ≤ v && v ≤ 0xDFFF then some (replChar, r)
      else some (Char.ofNat v, r)
    | _, _, _, _ => none
  | _ => none

/-- Parse the remainder of a string literal, the opening quote already
consumed.  `fuel` only serves structural termination: every step
consumes at least one character, so fuel equal to the character count
never runs out. -/
def parseStrGo : Nat → List Char → Option (List Char × List Char)
  | 0, _ => none
  | _, [] => none
  | fuel + 1, c :: cs =>
    if c = '"' then some ([], cs)
    else if c = '\\' then
      match parseEscape cs with
      | some (ch, r) => (parseStrGo fuel r).map (fun p => (ch :: p.1, p.2))
      | none => none
    else if c.toNat < 32 then none
    else (parseStrGo fuel cs).map (fun p => (c :: p.1, p.2))

/-- Parse the remainder of a string literal, the opening quote already
consumed. -/
def parseStringRest (cs : List Char) : Option (List Char × List Char) :=
  parseStrGo cs.length cs

mutual

/-- Parse one JSON value (leading whitespace allowed). -/
def parseValueGo : Nat → List Char → Option (Json × List Char)
  | 0, _ => none
  | fuel + 1, cs =>
    match skipWs cs with
    | [] => none
    | c :: cs' =>
      if c = '{' then
        match skipWs cs' with
        | '}' :: r => some (.obj [], r)
        | r => parseMembersGo fuel [] r
      else if c = '[' then
        match skipWs cs' with
        | ']' :: r => some (.arr [], r)
        | r => parseElemsGo fuel [] r
      else if c = '"' then
        (parseStringRest cs').map (fun p => (.str ⟨p.1⟩, p.2))
      else if c = 't' then
        match cs' with
        | 'r' :: 'u' :: 'e' :: r => some (.bool true, r)
        | _ => none
      else if c = 'f' then
        match cs' with
        | 'a' :: 'l' :: 's' :: 'e' :: r => some (.bool false, r)
        | _ => none
      else if c = 'n' then
        match cs' with
        | 'u' :: 'l' :: 'l' :: r => some (.null, r)
        | _ => none
      else
        (parseNumber (c :: cs')).map (fun p => (.num p.1, p.2))

/-- Parse the members of an object, the opening brace consumed and the
object known to be non-empty; duplicated keys keep the last value at
the first position, as `JSON.parse` does. -/
def parseMembersGo : Nat → List (String × Json) → List Char → Option (Json × List Char)
  | 0, _, _ => none
  | fuel + 1, acc, cs =>
    match skipWs cs with
    | '"' :: cs' =>
      match parseStringRest cs' with
      | some (k, r1) =>
        match skipWs r1 with
        | ':' :: r2 =>
          match parseValueGo fuel r2 with
          | some (v, r3) =>
            let acc' := objUpsert acc ⟨k⟩ v
            match skipWs r3 with
            | ',' :: r4 => parseMembersGo fuel acc' r4
            | '}' :: r4 => some (.obj acc', r4)
            | _ => none
          | none => none
        | _ => none
      | none => none
    | _ => none

/-- Parse the elements of an array, the opening bracket consumed and
the array known to be non-empty. -/
def parseElemsGo : Nat → List Json → List Char → Option (Json × List Char)
  | 0, _, _ => none
  | fuel + 1, acc, cs =>
    match parseValueGo fuel cs with
    | some (v, r1) =>
      match skipWs r1 with
      | ',' :: r2 => parseElemsGo fuel (acc ++ [v]) r2
      | ']' :: r2 => some (.arr (acc ++ [v]), r2)
      | _ => none
    | none => none

end

/-- `JSON.parse`: one complete value, trailing whitespace allowed. -/
def jsonParse (s : String) : Option Json :=
  match parseValueGo (s.length + 1) s.data with
  | some (v, rest) => if (skipWs rest).isEmpty then some v else none
  | none => none

/-! ### Job state codec (src/unnamed/part_003,
`encodeSimpleState` / `decodeSimpleState`) -/

/-- `Buffer.from(JSON.stringify(state)).toString('base64url')`,
generalised to the JSON object actually encoded (the
alignment-to-tree transition spreads the decoded object, so the
encoded object may carry fields beyond the declared interface). -/
def encodeJson (j : Json) : String :=
  b64urlEncode (utf8Encode (jsonStringify j))

/-- The `SimpleStage` union. -/
inductive SimpleStage where
  | alignment
  | tree
deriving DecidableEq, Repr

/-- The literal string of a stage. -/
def SimpleStage.toStr : SimpleStage → String
  | .alignment => "alignment"
  | .tree => "tree"

/-- The JSON object of a well-formed `SimplePhylogenyState`, in the
key order of the source's object literals (`version`, `method`,
`stage`, `clustalJobId`, then `simpleJobId` when present). -/
def stateJson (stage : SimpleStage) (clustalJobId : String)
    (simpleJobId : Option String) : Json :=
  .obj ([("version", .num 1), ("method", .str "simple_phylogeny"),
         ("stage", .str stage.toStr), ("clustalJobId", .str clustalJobId)] ++
    (match simpleJobId with
     | some s => [("simpleJobId", .str s)]
     | none => []))

/-- `encodeSimpleState` on a well-formed state. -/
def encodeSimpleState (stage : SimpleStage) (clustalJobId : String)
    (simpleJobId : Option String) : String :=
  encodeJson (stateJson stage clustalJobId simpleJobId)

/-- `decodeSimpleState`: base64url-decode, UTF-8-decode, `JSON.parse`,
then accept exactly when the parsed value is truthy with
`method === 'simple_phylogeny'` and `version === 1`; `none` on any
parse failure or tag mismatch (the source's catch block and `return
null`). -/
def decodeSimpleState (token : String) : Option Json :=
  match jsonParse (utf8Decode (b64urlDecode token)) with
  | none => none
  | some parsed =>
    if jsTruthy parsed && isFieldStr parsed "method" "simple_phylogeny" &&
        isFieldNum parsed "version" 1 then
      some parsed
    else none

/-! ### The orchestrator (src/unnamed/part_003, workflows and handler) -/

/-- The outbound requests the pipeline can issue, carrying the payload
relevant to each endpoint. -/
inductive Request where
  | clustalRun (sequence : String)
  | clustalStatus (id : String)
  | clustalResultFa (id : String)
  | clustalResultPhylotree (id : String)
  | simpleRun (sequence : String)
  | simpleStatus (id : String)
  | simpleResultTree (id : String)
deriving DecidableEq, Repr

/-- The network environment: the HTTP response observed for each
outbound request. -/
def Env := Request → HttpResponse

def CLUSTAL_BASE_URL : String :=
  "https://www.ebi.ac.uk/Tools/services/rest/clustalo"

def SIMPLE_PHYLOGENY_BASE_URL : String :=
  "https://www.ebi.ac.uk/Tools/services/rest/simple_phylogeny"

/-- `buildResultUrl`. -/
def buildResultUrl (base jobId type : String) : String :=
  base ++ "/result/" ++ jobId ++ "/" ++ type

/-- The `PhyloStatus` union (the envelope's `status` field). -/
inductive PhyloStatus where
  | RUNNING
  | FINISHED
  | FAILURE
  | PENDING
deriving DecidableEq, Repr

/-- The `ProgressEnvelope` returned to the caller.  Fields other than
`status` hold JSON values because the tree-stage branches copy
`state.clustalJobId` / `state.simpleJobId` out of the decoded token
verbatim. -/
structure ProgressEnvelope where
  status : PhyloStatus
  jobId : Option Json := none
  service : Option Json := none
  stage : Option Json := none
  externalService : Option Json := none
  externalId : Option Json := none
  externalUrl : Option Json := none
  alignmentJobId : Option Json := none
  treeJobId : Option Json := none
  result : Option Json := none
  message : Option Json := none

/-- `s.endsWith('\\n')` for the one-character suffix used by the
pipeline: the last character of the string is a newline. -/
def endsWithNl (s : String) : Bool := s.data.getLast? == some '\n'

/-- The own enumerable fields contributed by `{ ...state }`.  The
workflow only ever spreads a value that passed `decodeSimpleState`,
which is necessarily an object. -/
def jsSpread : Json → List (String × Json)
  | .obj fs => fs
  | _ => []

/-- `handleClustalWorkflow` (the legacy single-stage path): result of
the poll together with the ordered requests issued. -/
def handleClustalWorkflow (env : Env) (jobId : String) :
    Except String ProgressEnvelope × List Request :=
  let req := Request.clustalStatus jobId
  match getJobStatus jobId (env req) with
  | .error e => (.error e, [req])
  | .ok status =>
    if status = "FINISHED" then
      let req2 := Request.clustalResultPhylotree jobId
      match fetchClustalTree (env req2) with
      | .error e => (.error e, [req, req2])
      | .ok tree =>
        (.ok { status := .FINISHED, service := some (.str "clustalo"),
               stage := some (.str "tree"),
               externalService := some (.str "clustalo"),
               externalId := some (.str jobId),
               externalUrl := some (.str (buildResultUrl CLUSTAL_BASE_URL jobId "phylotree")),
               alignmentJobId := some (.str jobId),
               treeJobId := some (.str jobId),
               result := some (.str tree) }, [req, req2])
    else if status = "RUNNING" || status = "PENDING" then
      (.ok { status := .RUNNING, jobId := some (.str jobId),
             service := some (.str "clustalo"), stage := some (.str "tree"),
             externalService := some (.str "clustalo"),
             externalId := some (.str jobId),
             externalUrl := some (.str (buildResultUrl CLUSTAL_BASE_URL jobId "phylotree")),
             alignmentJobId := some (.str jobId) }, [req])
    else
      (.ok { status := .FAILURE,
             message := some (.str ("Clustal Omega job failed with status: " ++ status)) },
       [req])

/-- `handleSimplePhylogenyWorkflow`: result of polling a decoded
composite state together with the ordered requests issued. -/
def handleSimplePhylogenyWorkflow (env : Env) (state : Json) (token : String) :
    Except String ProgressEnvelope × List Request :=
  if isFieldStr state "stage" "alignment" then
    let cid := jsToString (jsGetField state "clustalJobId")
    let req := Request.clustalStatus cid
    match getJobStatus cid (env req) with
    | .error e => (.error e, [req])
    | .ok status =>
      if status = "FINISHED" then
        let req2 := Request.clustalResultFa cid
        match fetchClustalAlignment (env req2) with
        | .error e => (.error e, [req, req2])
        | .ok alignment =>
          let req3 := Request.simpleRun
            (if endsWithNl alignment then alignment else alignment ++ "\n")
          match submitSimplePhylogenyJob (env req3) with
          | .error e => (.error e, [req, req2, req3])
          | .ok simpleJobId =>
            let nextState : Json := .obj (objUpsert
              (objUpsert (jsSpread state) "stage" (.str "tree"))
              "simpleJobId" (.str simpleJobId))
            (.ok { status := .RUNNING,
                   jobId := some (.str (encodeJson nextState)),
                   service := some (.str "simple_phylogeny"),
                   stage := some (.str "tree"),
                   externalService := some (.str "simple_phylogeny"),
                   externalId := some (.str simpleJobId),
                   externalUrl := some (.str (buildResultUrl
                     SIMPLE_PHYLOGENY_BASE_URL simpleJobId "tree")),
                   alignmentJobId := jsGetField state "clustalJobId",
                   treeJobId := some (.str simpleJobId) }, [req, req2, req3])
      else if status = "RUNNING" || status = "PENDING" then
        (.ok { status := .RUNNING, jobId := some (.str token),
               service := some (.str "simple_phylogeny"),
               stage := some (.str "alignment"),
               externalService := some (.str "clustalo"),
               externalId := jsGetField state "clustalJobId",
               externalUrl := some (.str (buildResultUrl CLUSTAL_BASE_URL cid "fa")),
               alignmentJobId := jsGetField state "clustalJobId" }, [req])
      else
        (.ok { status := .FAILURE,
               message := some (.str ("Clustal Omega alignment failed with status: " ++ status)) },
         [req])
  else if isFieldStr state "stage" "tree" then
    if jsFalsyField (jsGetField state "simpleJobId") then
      (.ok { status := .FAILURE,
             message := some (.str "Invalid job token: missing Simple Phylogeny job identifier.") },
       [])
    else
      let sid := jsToString (jsGetField state "simpleJobId")
      let req := Request.simpleStatus sid
      match getJobStatus sid (env req) with
      | .error e => (.error e, [req])
      | .ok status =>
        if status = "FINISHED" then
          let req2 := Request.simpleResultTree sid
          match fetchSimplePhylogenyTree (env req2) with
          | .error e => (.error e, [req, req2])
          | .ok tree =>
            (.ok { status := .FINISHED,
                   service := some (.str "simple_phylogeny"),
                   stage := some (.str "tree"),
                   externalService := some (.str "simple_phylogeny"),
                   externalId := jsGetField state "simpleJobId",
                   externalUrl := some (.str (buildResultUrl
                     SIMPLE_PHYLOGENY_BASE_URL sid "tree")),
                   alignmentJobId := jsGetField state "clustalJobId",
                   treeJobId := jsGetField state "simpleJobId",
                   result := some (.str tree) }, [req, req2])
        else if status = "RUNNING" || status = "PENDING" then
          (.ok { status := .RUNNING, jobId := some (.str token),
                 service := some (.str "simple_phylogeny"),
                 stage := some (.str "tree"),
                 externalService := some (.str "simple_phylogeny"),
                 externalId := jsGetField state "simpleJobId",
                 externalUrl := some (.str (buildResultUrl
                   SIMPLE_PHYLOGENY_BASE_URL sid "tree")),
                 alignmentJobId := jsGetField state "clustalJobId",
                 treeJobId := jsGetField state "simpleJobId" }, [req])
        else
          (.ok { status := .FAILURE,
                 message := some (.str ("Simple Phylogeny job failed with status: " ++ status)) },
           [req])
  else
    (.ok { status := .FAILURE,
           message := some (.str "Unhandled job stage encountered in Simple Phylogeny pipeline.") },
     [])

/-- `normalizeMethod`: any value other than a string whose ASCII
lower-casing is `'clustalo'` selects the two-stage pipeline. -/
inductive PhyloMethod where
  | clustalo
  | simple_phylogeny
deriving DecidableEq, Repr

/-- `normalizeMethod` over the JSON-shaped request field (`none` for an
absent field). -/
def normalizeMethod (rawMethod : Option Json) : PhyloMethod :=
  match rawMethod with
  | some (.str s) => if jsToLower s = "clustalo" then .clustalo else .simple_phylogeny
  | _ => .simple_phylogeny

/-- `buildFasta`: auto-generated `>seqN` headers over trimmed
sequences, newline-joined. -/
def buildFasta (sequences : List String) : String :=
  String.intercalate "\n"
    (sequences.mapIdx (fun i seq => ">seq" ++ toString (i + 1) ++ "\n" ++ jsTrim seq))

/-- The 202 submission payload (all its fields are string literals or
freshly produced job identifiers in the source). -/
structure SubmitPayload where
  jobId : String
  service : String
  stage : String
  externalService : String
  externalId : String
  externalUrl : String
  alignmentJobId : String
deriving DecidableEq, Repr

/-- The transport-level outcomes of the phylogeny handler. -/
inductive HandlerResult where
  | poll (payload : ProgressEnvelope)
  | accepted (payload : SubmitPayload)
  | badRequest (error : String)
  | serverError (error : String)

/-- The phylogeny `handler` for a POST request: `sequences = none`
models an absent or non-array field, `jobId` and `method` model the
request-body fields.  Returns the transport outcome and the ordered
requests issued. -/
def handler (env : Env) (sequences : Option (List String))
    (jobId : Option String) (method : Option Json) :
    HandlerResult × List Request :=
  match jobId with
  | some j =>
    if j = "" then (.badRequest "At least two sequences are required for tree generation.", [])
    else
      match decodeSimpleState j with
      | some simpleState =>
        let (r, log) := handleSimplePhylogenyWorkflow env simpleState j
        ((match r with | .ok p => .poll p | .error e => .serverError e), log)
      | none =>
        let (r, log) := handleClustalWorkflow env j
        ((match r with | .ok p => .poll p | .error e => .serverError e), log)
  | none =>
    match sequences with
    | none => (.badRequest "At least two sequences are required for tree generation.", [])
    | some seqs =>
      if seqs.length < 2 then
        (.badRequest "At least two sequences are required for tree generation.", [])
      else
        let methodToUse := normalizeMethod method
        let fasta := buildFasta seqs
        let req := Request.clustalRun
          (if endsWithNl fasta then fasta else fasta ++ "\n")
        match submitClustalJob (env req) with
        | .error e => (.serverError e, [req])
        | .ok clustalJobId =>
          match methodToUse with
          | .clustalo =>
            (.accepted { jobId := clustalJobId, service := "clustalo",
                         stage := "tree", externalService := "clustalo",
                         externalId := clustalJobId,
                         externalUrl := buildResultUrl CLUSTAL_BASE_URL clustalJobId "phylotree",
                         alignmentJobId := clustalJobId }, [req])
          | .simple_phylogeny =>
            (.accepted { jobId := encodeSimpleState .alignment clustalJobId none,
                         service := "simple_phylogeny", stage := "alignment",
                         externalService := "clustalo",
                         externalId := clustalJobId,
                         externalUrl := buildResultUrl CLUSTAL_BASE_URL clustalJobId "fa",
                         alignmentJobId := clustalJobId }, [req])

/-! ### Structural predicates used by the claims -/

/-- Well-formed JSON values: every object's keys are pairwise distinct
(the invariant `JSON.parse` output satisfies, under which printing and
re-parsing is the identity). -/
inductive JsonWF : Json → Prop where
  | null : JsonWF .null
  | bool (b : Bool) : JsonWF (.bool b)
  | num (n : Int) : JsonWF (.num n)
  | str (s : String) : JsonWF (.str s)
  | arr (xs : List Json) : (∀ x ∈ xs, JsonWF x) → JsonWF (.arr xs)
  | obj (fs : List (String × Json)) : (∀ p ∈ fs, JsonWF p.2) →
      (fs.map Prod.fst).Nodup → JsonWF (.obj fs)

/-- The pipeline-state invariant of the spec: `clustalJobId` present,
and `simpleJobId` present exactly at `stage == tree`. -/
def stateInv (j : Json) : Prop :=
  (jsGetField j "clustalJobId").isSome ∧
  ((jsGetField j "simpleJobId").isSome ↔ isFieldStr j "stage" "tree" = true)

/-- `rest` does not begin with a decimal digit (the separator following
a printed number in a JSON text). -/
def headNotDigit (cs : List Char) : Prop :=
  ∀ c ∈ cs.head?, isDigitCh c = false

mutual

/-- Fuel sufficient for `parseValueGo` to parse the printed form of a
value: one unit per value entry and per member/element iteration. -/
def jsonFuel : Json → Nat
  | .arr xs => 1 + elemsFuel xs
  | .obj fs => 1 + membersFuel fs
  | _ => 1

/-- Fuel sufficient for `parseElemsGo` over printed elements. -/
def elemsFuel : List Json → Nat
  | [] => 0
  | x :: rest => 1 + jsonFuel x + elemsFuel rest

/-- Fuel sufficient for `parseMembersGo` over printed members. -/
def membersFuel : List (String × Json) → Nat
  | [] => 0
  | p :: rest => 1 + jsonFuel p.2 + membersFuel rest

end

/-- Oracle answering 503 on the first attempt and 200 afterwards. -/
def oracle503 : Nat → AttemptOutcome := fun n => if n = 0 then .resp 503 else .resp 200

/-- Oracle answering 404 on the first attempt and 200 afterwards. -/
def oracle404 : Nat → AttemptOutcome := fun n => if n = 0 then .resp 404 else .resp 200

/-- Environment used by the concrete witnesses: a finished Clustal job
`J1` whose alignment submits into Simple Phylogeny job `SP-77`. -/
def envW : Env := fun req =>
  match req with
  | .clustalStatus "J1" => ⟨200, "FINISHED", ""⟩
  | .clustalResultFa "J1" => ⟨200, ">seq1\nMKT", ""⟩
  | .simpleRun _ => ⟨200, "SP-77", ""⟩
  | _ => ⟨500, "", ""⟩

/-- Environment for the invariant witness: submission yields Clustal
job `J9`, which finishes and submits into Simple Phylogeny job `SP9`. -/
def env9 : Env := fun req =>
  match req with
  | .clustalRun _ => ⟨200, "J9", ""⟩
  | .clustalStatus "J9" => ⟨200, "FINISHED", ""⟩
  | .clustalResultFa "J9" => ⟨200, ">seq1\nMKT", ""⟩
  | .simpleRun _ => ⟨200, "SP9", ""⟩
  | _ => ⟨500, "", ""⟩

/-- Adversarial environment for the clustalo-path counterexample: the
remote submission endpoint returns, as the raw job identifier, a string
that happens to be a well-formed composite token. -/
def env7 : Env := fun req =>
  match req with
  | .clustalRun _ =>
    ⟨200, "eyJ2ZXJzaW9uIjoxLCJtZXRob2QiOiJzaW1wbGVfcGh5bG9nZW55Iiwic3RhZ2UiOiJhbGlnbm1lbnQiLCJjbHVzdGFsSm9iSWQiOiJ4In0", ""⟩
  | _ => ⟨500, "", ""⟩

theorem b64Val_b64Char : ∀ v < 64, b64Val (b64Char v) = some v := by decide

theorem b64_roundtrip : ∀ bs : List Nat, (∀ b ∈ bs, b < 256) →
    b64DecodeSextets ((b64EncodeBytes bs).filterMap b64Val) = bs := by
  intro bs
  induction bs using b64EncodeBytes.induct with
  | case1 =>
    intro _
    rfl
  | case2 b0 =>
    intro h
    have hb0 : b0 < 256 := h b0 (by simp)
    have h1 := b64Val_b64Char (b0 / 4) (by omega)
    have h2 := b64Val_b64Char (b0 % 4 * 16) (by omega)
    simp [b64EncodeBytes, List.filterMap_cons, h1, h2, b64DecodeSextets]
    omega
  | case3 b0 b1 =>
    intro h
    have hb0 : b0 < 256 := h b0 (by simp)
    have hb1 : b1 < 256 := h b1 (by simp)
    have h1 := b64Val_b64Char (b0 / 4) (by omega)
    have h2 := b64Val_b64Char (b0 % 4 * 16 + b1 / 16) (by omega)
    have h3 := b64Val_b64Char (b1 % 16 * 4) (by omega)
    simp [b64EncodeBytes, List.filterMap_cons, h1, h2, h3, b64DecodeSextets]
    constructor <;> omega
  | case4 b0 b1 b2 rest ih =>
    intro h
    have hb0 : b0 < 256 := h b0 (by simp)
    have hb1 : b1 < 256 := h b1 (by simp)
    have hb2 : b2 < 256 := h b2 (by simp)
    have h1 := b64Val_b64Char (b0 / 4) (by omega)
    have h2 := b64Val_b64Char (b0 % 4 * 16 + b1 / 16) (by omega)
    have h3 := b64Val_b64Char (b1 % 16 * 4 + b2 / 64) (by omega)
    have h4 := b64Val_b64Char (b2 % 64) (by omega)
    have ih' := ih (fun b hb => h b (by simp [hb]))
    simp [b64EncodeBytes, List.filterMap_cons, h1, h2, h3, h4, b64DecodeSextets, ih']
    refine ⟨by omega, by omega, by omega⟩

theorem char_toNat_lt (c : Char) : c.toNat < 0x110000 := by
  have h := c.valid
  rcases h with h | h
  · have : c.val.toNat < 55296 := h
    simp [Char.toNat]; omega
  · obtain ⟨_, h2⟩ := h
    simp [Char.toNat]; omega

theorem char_toNat_not_surrogate (c : Char) :
    ¬(0xD800 ≤ c.toNat ∧ c.toNat ≤ 0xDFFF) := by
  have h := c.valid
  rcases h with h | h
  · have : c.val.toNat < 55296 := h
    simp [Char.toNat]; omega
  · obtain ⟨h1, _⟩ := h
    have : 57344 ≤ c.val.toNat := h1
    simp [Char.toNat]; omega

theorem utf8EncodeChar_lt256 (c : Char) : ∀ b ∈ utf8EncodeChar c, b < 256 := by
  have := char_toNat_lt c
  unfold utf8EncodeChar
  simp only []
  split
  · intro b hb; simp at hb; omega
  · split
    · intro b hb; simp at hb; rcases hb with h | h <;> omega
    · split
      · intro b hb; simp at hb; rcases hb with h | h | h <;> omega
      · intro b hb; simp at hb; rcases hb with h | h | h | h <;> omega

theorem utf8DecodeGo_encodeChar (fuel : Nat) (c : Char) (bs : List Nat) :
    utf8DecodeGo (fuel + 1) (utf8EncodeChar c ++ bs) = c :: utf8DecodeGo fuel bs := by
  have hlt := char_toNat_lt c
  have hsur := char_toNat_not_surrogate c
  have hofn := Char.ofNat_toNat c
  by_cases h1 : c.toNat < 0x80
  · have henc : utf8EncodeChar c = [c.toNat] := by
      unfold utf8EncodeChar; simp only []; rw [if_pos h1]
    rw [henc, List.cons_append, List.nil_append, utf8DecodeGo.eq_3,
      if_pos (by simpa using h1), hofn]
  · by_cases h2 : c.toNat < 0x800
    · have henc : utf8EncodeChar c = [0xC0 + c.toNat / 64, 0x80 + c.toNat % 64] := by
        unfold utf8EncodeChar; simp only []
        rw [if_neg h1, if_pos h2]
      rw [henc]
      have hcont : isCont (0x80 + c.toNat % 64) = true := by
        simp [isCont]; omega
      have harith : (0xC0 + c.toNat / 64 - 0xC0) * 64 + (0x80 + c.toNat % 64 - 0x80)
          = c.toNat := by omega
      rw [List.cons_append, List.cons_append, List.nil_append, utf8DecodeGo.eq_3,
        if_neg (by omega)]
      rw [if_pos (by simp; omega)]
      simp only [take1]
      rw [if_pos hcont, harith, hofn]
    · by_cases h3 : c.toNat < 0x10000
      · have henc : utf8EncodeChar c =
            [0xE0 + c.toNat / 4096, 0x80 + c.toNat / 64 % 64, 0x80 + c.toNat % 64] := by
          unfold utf8EncodeChar; simp only []
          rw [if_neg h1, if_neg h2, if_pos h3]
        rw [henc]
        have hcont : (isCont (0x80 + c.toNat / 64 % 64) &&
            isCont (0x80 + c.toNat % 64)) = true := by
          simp [isCont]; omega
        have harith : (0xE0 + c.toNat / 4096 - 0xE0) * 4096 +
            (0x80 + c.toNat / 64 % 64 - 0x80) * 64 + (0x80 + c.toNat % 64 - 0x80)
            = c.toNat := by omega
        rw [List.cons_append, List.cons_append, List.cons_append, List.nil_append,
          utf8DecodeGo.eq_3, if_neg (by omega)]
        rw [if_neg (by simp; omega)]
        rw [if_pos (by simp; omega)]
        simp only [take2]
        rw [if_pos hcont]
        simp only [harith]
        rw [if_pos (by simp; omega), hofn]
      · have henc : utf8EncodeChar c =
            [0xF0 + c.toNat / 262144, 0x80 + c.toNat / 4096 % 64,
             0x80 + c.toNat / 64 % 64, 0x80 + c.toNat % 64] := by
          unfold utf8EncodeChar; simp only []
          rw [if_neg h1, if_neg h2, if_neg h3]
        rw [henc]
        have hcont : (isCont (0x80 + c.toNat / 4096 % 64) &&
            isCont (0x80 + c.toNat / 64 % 64) && isCont (0x80 + c.toNat % 64)) = true := by
          simp [isCont]; omega
        have harith : (0xF0 + c.toNat / 262144 - 0xF0) * 262144 +
            (0x80 + c.toNat / 4096 % 64 - 0x80) * 4096 +
            (0x80 + c.toNat / 64 % 64 - 0x80) * 64 + (0x80 + c.toNat % 64 - 0x80)
            = c.toNat := by omega
        rw [List.cons_append, List.cons_append, List.cons_append, List.cons_append,
          List.nil_append, utf8DecodeGo.eq_3, if_neg (by omega)]
        rw [if_neg (by simp; omega)]
        rw [if_neg (by simp; omega)]
        rw [if_pos (by simp; omega)]
        simp only [take3]
        rw [if_pos hcont]
        simp only [harith]
        rw [if_pos (by simp; omega), hofn]

theorem utf8EncodeChar_length_pos (c : Char) : 1 ≤ (utf8EncodeChar c).length := by
  unfold utf8EncodeChar
  simp only []
  split
  · simp
  · split
    · simp
    · split <;> simp

theorem utf8DecodeGo_encodeList : ∀ (cs : List Char) (fuel : Nat), cs.length ≤ fuel →
    utf8DecodeGo fuel (cs.foldr (fun c acc => utf8EncodeChar c ++ acc) []) = cs := by
  intro cs
  induction cs with
  | nil =>
    intro fuel _
    cases fuel <;> rfl
  | cons c cs ih =>
    intro fuel hf
    cases fuel with
    | zero => simp at hf
    | succ f =>
      simp only [List.foldr_cons]
      rw [utf8DecodeGo_encodeChar, ih f (by simpa using hf)]

theorem utf8Encode_length_ge (cs : List Char) :
    cs.length ≤ (cs.foldr (fun c acc => utf8EncodeChar c ++ acc) []).length := by
  induction cs with
  | nil => simp
  | cons c cs ih =>
    simp only [List.foldr_cons, List.length_append, List.length_cons]
    have := utf8EncodeChar_length_pos c
    omega

theorem utf8_roundtrip (s : String) : utf8Decode (utf8Encode s) = s := by
  unfold utf8Decode utf8DecodeChars utf8Encode
  rw [utf8DecodeGo_encodeList _ _ (utf8Encode_length_ge s.data)]

theorem utf8Encode_lt256 (s : String) : ∀ b ∈ utf8Encode s, b < 256 := by
  unfold utf8Encode
  induction s.data with
  | nil => simp
  | cons c cs ih =>
    simp only [List.foldr_cons, List.mem_append]
    intro b hb
    rcases hb with hb | hb
    · exact utf8EncodeChar_lt256 c b hb
    · exact ih b hb

theorem codec_roundtrip (s : String) :
    utf8Decode (b64urlDecode (b64urlEncode (utf8Encode s))) = s := by
  unfold b64urlDecode b64urlEncode
  rw [show (String.mk (b64EncodeBytes (utf8Encode s))).data
      = b64EncodeBytes (utf8Encode s) from rfl]
  rw [b64_roundtrip _ (utf8Encode_lt256 s), utf8_roundtrip]

theorem char_toNat_ofNat (n : Nat) (h : n < 0xD800) : (Char.ofNat n).toNat = n := by
  have hv : n.isValidChar := Or.inl h
  unfold Char.ofNat
  rw [dif_pos hv]
  simp [Char.ofNatAux, Char.toNat, UInt32.toNat]

theorem digitChar_toNat (n : Nat) (h : n < 10) : (digitChar n).toNat = 48 + n := by
  unfold digitChar
  rw [char_toNat_ofNat]
  omega

theorem digitChar_isDigit (n : Nat) (h : n < 10) : isDigitCh (digitChar n) = true := by
  simp [isDigitCh, digitChar_toNat n h]
  omega

theorem natToChars_all_digits (n : Nat) : ∀ c ∈ natToChars n, isDigitCh c = true := by
  induction n using natToChars.induct with
  | case1 n h =>
    intro c hc
    rw [natToChars, dif_pos h] at hc
    simp at hc
    subst hc
    exact digitChar_isDigit n h
  | case2 n h ih =>
    intro c hc
    rw [natToChars, dif_neg h] at hc
    simp at hc
    rcases hc with hc | hc
    · exact ih c hc
    · subst hc
      exact digitChar_isDigit _ (by omega)

theorem natToChars_ne_nil (n : Nat) : natToChars n ≠ [] := by
  induction n using natToChars.induct with
  | case1 n h => rw [natToChars, dif_pos h]; simp
  | case2 n h ih => rw [natToChars, dif_neg h]; simp

theorem digitsToNat_append1 (xs : List Char) (d : Char) :
    digitsToNat (xs ++ [d]) = digitsToNat xs * 10 + (d.toNat - 48) := by
  unfold digitsToNat
  rw [List.foldl_append]
  rfl

theorem digitsToNat_natToChars (n : Nat) : digitsToNat (natToChars n) = n := by
  induction n using natToChars.induct with
  | case1 n h =>
    rw [natToChars, dif_pos h]
    show digitsToNat ([] ++ [digitChar n]) = n
    rw [digitsToNat_append1, digitChar_toNat n h]
    simp [digitsToNat]
  | case2 n h ih =>
    rw [natToChars, dif_neg h, digitsToNat_append1, ih,
      digitChar_toNat (n % 10) (by omega)]
    omega

theorem takeWhile_append_all {p : Char → Bool} (xs rest : List Char)
    (hall : ∀ c ∈ xs, p c = true) (hrest : ∀ c ∈ rest.head?, p c = false) :
    (xs ++ rest).takeWhile p = xs ∧ (xs ++ rest).dropWhile p = rest := by
  induction xs with
  | nil =>
    simp only [List.nil_append]
    cases rest with
    | nil => simp
    | cons r rs =>
      have := hrest r (by simp)
      simp [List.takeWhile_cons, List.dropWhile_cons, this]
  | cons x xs ih =>
    have hx := hall x (by simp)
    have ih' := ih (fun c hc => hall c (by simp [hc]))
    simp [List.takeWhile_cons, List.dropWhile_cons, hx, ih'.1, ih'.2]

theorem parseDigits_natToChars (n : Nat) (rest : List Char) (hrest : headNotDigit rest) :
    parseDigits (natToChars n ++ rest) = some (n, rest) := by
  unfold parseDigits
  have h := takeWhile_append_all (p := isDigitCh) (natToChars n) rest
    (natToChars_all_digits n) hrest
  rw [h.1, h.2]
  have hne := natToChars_ne_nil n
  simp only [List.isEmpty_iff]
  rw [if_neg hne, digitsToNat_natToChars]

theorem natToChars_shape (n : Nat) :
    ∃ c cs, natToChars n = c :: cs ∧ isDigitCh c = true := by
  cases hh : natToChars n with
  | nil => exact absurd hh (natToChars_ne_nil n)
  | cons c cs =>
    exact ⟨c, cs, rfl, natToChars_all_digits n c (by rw [hh]; simp)⟩

theorem parseNumber_intToChars (i : Int) (rest : List Char) (hrest : headNotDigit rest) :
    parseNumber (intToChars i ++ rest) = some (i, rest) := by
  unfold intToChars
  by_cases hi : i < 0
  · rw [if_pos hi]
    rw [List.cons_append]
    rw [parseNumber]
    rw [if_pos rfl, parseDigits_natToChars _ _ hrest]
    show some (-((i.natAbs : Nat) : Int), rest) = some (i, rest)
    congr 2
    omega
  · rw [if_neg hi]
    obtain ⟨c, cs, hshape, hdig⟩ := natToChars_shape i.natAbs
    rw [hshape, List.cons_append, parseNumber]
    have hc : c ≠ '-' := by
      intro hcontra
      subst hcontra
      simp [isDigitCh] at hdig
    rw [if_neg hc, ← List.cons_append, ← hshape, parseDigits_natToChars _ _ hrest]
    show some (((i.natAbs : Nat) : Int), rest) = some (i, rest)
    congr 2
    omega

theorem hexVal_hexDigit : ∀ m < 16, hexVal (hexDigit m) = some m := by decide

theorem escapeChars_cons (c : Char) (cs : List Char) :
    escapeChars (c :: cs) = escapeChar c ++ escapeChars cs := rfl

theorem parseEscape_quote (r : List Char) : parseEscape ('"' :: r) = some ('"', r) := rfl

theorem parseEscape_bs (r : List Char) : parseEscape ('\\' :: r) = some ('\\', r) := rfl

theorem parseEscape_b (r : List Char) : parseEscape ('b' :: r) = some (Char.ofNat 8, r) := rfl

theorem parseEscape_f (r : List Char) : parseEscape ('f' :: r) = some (Char.ofNat 12, r) := rfl

theorem parseEscape_n (r : List Char) : parseEscape ('n' :: r) = some (Char.ofNat 10, r) := rfl

theorem parseEscape_r (r : List Char) : parseEscape ('r' :: r) = some (Char.ofNat 13, r) := rfl

theorem parseEscape_t (r : List Char) : parseEscape ('t' :: r) = some (Char.ofNat 9, r) := rfl

theorem parseEscape_u (h1 h2 h3 h4 : Char) (r : List Char) :
    parseEscape ('u' :: h1 :: h2 :: h3 :: h4 :: r) =
      match hexVal h1, hexVal h2, hexVal h3, hexVal h4 with
      | some a, some b, some c1, some d =>
        let v := a * 4096 + b * 256 + c1 * 16 + d
        if 0xD800 ≤ v && v ≤ 0xDBFF then
          match r with
          | '\\' :: 'u' :: g1 :: g2 :: g3 :: g4 :: r2 =>
            match hexVal g1, hexVal g2, hexVal g3, hexVal g4 with
            | some a2, some b2, some c2, some d2 =>
              let w := a2 * 4096 + b2 * 256 + c2 * 16 + d2
              if 0xDC00 ≤ w && w ≤ 0xDFFF then
                some (Char.ofNat (0x10000 + (v - 0xD800) * 1024 + (w - 0xDC00)), r2)
              else some (replChar, r)
            | _, _, _, _ => some (replChar, r)
          | _ => some (replChar, r)
        else if 0xDC00 ≤ v && v ≤ 0xDFFF then some (replChar, r)
        else some (Char.ofNat v, r)
      | _, _, _, _ => none := rfl

theorem parseEscape_u_control (n : Nat) (h : n < 32) (r : List Char) :
    parseEscape ('u' :: '0' :: '0' :: hexDigit (n / 16) :: hexDigit (n % 16) :: r) =
      some (Char.ofNat n, r) := by
  rw [parseEscape_u]
  rw [show hexVal '0' = some 0 from rfl]
  rw [hexVal_hexDigit (n / 16) (by omega), hexVal_hexDigit (n % 16) (by omega)]
  simp only []
  rw [if_neg (by simp; omega)]
  rw [if_neg (by simp; omega)]
  have harith : 0 * 4096 + 0 * 256 + n / 16 * 16 + n % 16 = n := by omega
  rw [harith]

theorem parseStrGo_bs_some (f : Nat) (tail : List Char) (ch : Char) (T : List Char)
    (hes : parseEscape tail = some (ch, T)) :
    parseStrGo (f + 1) ('\\' :: tail) =
      (parseStrGo f T).map (fun p => (ch :: p.1, p.2)) := by
  rw [parseStrGo.eq_3, if_neg (by decide), if_pos rfl, hes]

theorem parseStrGo_lit (f : Nat) (c : Char) (tail : List Char)
    (h1 : ¬c = '"') (h2 : ¬c = '\\') (h3 : ¬c.toNat < 32) :
    parseStrGo (f + 1) (c :: tail) =
      (parseStrGo f tail).map (fun p => (c :: p.1, p.2)) := by
  rw [parseStrGo.eq_3, if_neg h1, if_neg h2, if_neg h3]

theorem parseStrGo_escape : ∀ (cs rest : List Char) (fuel : Nat),
    cs.length + 1 ≤ fuel →
    parseStrGo fuel (escapeChars cs ++ '"' :: rest) = some (cs, rest) := by
  intro cs
  induction cs with
  | nil =>
    intro rest fuel hf
    cases fuel with
    | zero => omega
    | succ f =>
      show parseStrGo (f + 1) ('"' :: rest) = some ([], rest)
      rw [parseStrGo.eq_3, if_pos rfl]
  | cons c cs ih =>
    intro rest fuel hf
    cases fuel with
    | zero => simp at hf
    | succ f =>
      have hf' : cs.length + 1 ≤ f := by simp at hf; omega
      rw [escapeChars_cons, List.append_assoc]
      have hofn := Char.ofNat_toNat c
      by_cases hq : c = '"'
      · rw [escapeChar, if_pos hq, List.cons_append, List.cons_append, List.nil_append,
          parseStrGo_bs_some f _ _ _ (parseEscape_quote _), ih _ f hf']
        simp only [Option.map_some']
        rw [hq]
      · by_cases hb : c = '\\'
        · rw [escapeChar, if_neg hq, if_pos hb, List.cons_append, List.cons_append,
            List.nil_append, parseStrGo_bs_some f _ _ _ (parseEscape_bs _), ih _ f hf']
          simp only [Option.map_some']
          rw [hb]
        · by_cases h8 : c.toNat = 8
          · rw [escapeChar, if_neg hq, if_neg hb, if_pos h8, List.cons_append,
              List.cons_append, List.nil_append,
              parseStrGo_bs_some f _ _ _ (parseEscape_b _), ih _ f hf']
            simp only [Option.map_some']
            rw [← h8, hofn]
          · by_cases h9 : c.toNat = 9
            · rw [escapeChar, if_neg hq, if_neg hb, if_neg h8, if_pos h9,
                List.cons_append, List.cons_append, List.nil_append,
                parseStrGo_bs_some f _ _ _ (parseEscape_t _), ih _ f hf']
              simp only [Option.map_some']
              rw [← h9, hofn]
            · by_cases h10 : c.toNat = 10
              · rw [escapeChar, if_neg hq, if_neg hb, if_neg h8, if_neg h9, if_pos h10,
                  List.cons_append, List.cons_append, List.nil_append,
                  parseStrGo_bs_some f _ _ _ (parseEscape_n _), ih _ f hf']
                simp only [Option.map_some']
                rw [← h10, hofn]
              · by_cases h12 : c.toNat = 12
                · rw [escapeChar, if_neg hq, if_neg hb, if_neg h8, if_neg h9, if_neg h10,
                    if_pos h12, List.cons_append, List.cons_append, List.nil_append,
                    parseStrGo_bs_some f _ _ _ (parseEscape_f _), ih _ f hf']
                  simp only [Option.map_some']
                  rw [← h12, hofn]
                · by_cases h13 : c.toNat = 13
                  · rw [escapeChar, if_neg hq, if_neg hb, if_neg h8, if_neg h9,
                      if_neg h10, if_neg h12, if_pos h13, List.cons_append,
                      List.cons_append, List.nil_append,
                      parseStrGo_bs_some f _ _ _ (parseEscape_r _), ih _ f hf']
                    simp only [Option.map_some']
                    rw [← h13, hofn]
                  · by_cases h32 : c.toNat < 32
                    · rw [escapeChar, if_neg hq, if_neg hb, if_neg h8, if_neg h9,
                        if_neg h10, if_neg h12, if_neg h13, if_pos h32]
                      rw [show ('\\' :: 'u' :: '0' :: '0' :: hexDigit (c.toNat / 16)
                          :: hexDigit (c.toNat % 16) :: []) ++
                          (escapeChars cs ++ '"' :: rest)
                        = '\\' :: ('u' :: '0' :: '0' :: hexDigit (c.toNat / 16)
                          :: hexDigit (c.toNat % 16) :: (escapeChars cs ++ '"' :: rest))
                        from rfl]
                      rw [parseStrGo_bs_some f _ _ _
                        (parseEscape_u_control c.toNat h32 _), ih _ f hf']
                      simp only [Option.map_some']
                      rw [hofn]
                    · rw [escapeChar, if_neg hq, if_neg hb, if_neg h8, if_neg h9,
                        if_neg h10, if_neg h12, if_neg h13, if_neg h32,
                        List.cons_append, List.nil_append,
                        parseStrGo_lit f c _ hq hb h32, ih _ f hf']
                      simp only [Option.map_some']

theorem escapeChar_length_pos (c : Char) : 1 ≤ (escapeChar c).length := by
  unfold escapeChar
  repeat' split
  all_goals simp

theorem escapeChars_length_ge (cs : List Char) : cs.length ≤ (escapeChars cs).length := by
  induction cs with
  | nil => simp [escapeChars]
  | cons c cs ih =>
    rw [escapeChars_cons]
    simp only [List.length_append, List.length_cons]
    have := escapeChar_length_pos c
    omega

theorem parseStringRest_escape (s : String) (rest : List Char) :
    parseStringRest (escapeChars s.data ++ '"' :: rest) = some (s.data, rest) := by
  unfold parseStringRest
  apply parseStrGo_escape
  have := escapeChars_length_ge s.data
  simp only [List.length_append, List.length_cons]
  omega

theorem string_mk_data (s : String) : String.mk s.data = s := rfl

theorem objUpsert_fresh (fs : List (String × Json)) (k : String) (v : Json)
    (h : ∀ p ∈ fs, p.1 ≠ k) : objUpsert fs k v = fs ++ [(k, v)] := by
  unfold objUpsert
  rw [if_neg]
  simp only [List.any_eq_true, not_exists, not_and]
  intro p hp
  simpa using h p hp

theorem headNotDigit_cons (c : Char) (cs : List Char) (h : isDigitCh c = false) :
    headNotDigit (c :: cs) := by
  intro d hd
  simp at hd
  exact hd ▸ h

theorem digit_facts (c : Char) (h : isDigitCh c = true) :
    isJsonWs c = false ∧ c ≠ '{' ∧ c ≠ '[' ∧ c ≠ '"' ∧ c ≠ 't' ∧ c ≠ 'f' ∧
      c ≠ 'n' ∧ c ≠ ']' ∧ c ≠ '-' := by
  simp [isDigitCh] at h
  refine ⟨?_, ?_, ?_, ?_, ?_, ?_, ?_, ?_, ?_⟩
  · have hsp : c ≠ ' ' := by intro he; subst he; revert h; decide
    have hta : c ≠ '\t' := by intro he; subst he; revert h; decide
    have hnl : c ≠ '\n' := by intro he; subst he; revert h; decide
    have hcr : c ≠ '\r' := by intro he; subst he; revert h; decide
    simp [isJsonWs, hsp, hta, hnl, hcr]
  all_goals (intro he; subst he; revert h; decide)

theorem stringify_head (j : Json) : ∃ c cs, jsonStringifyChars j = c :: cs ∧
    isJsonWs c = false ∧ c ≠ ']' := by
  cases j with
  | null => exact ⟨'n', _, rfl, by decide, by decide⟩
  | bool b =>
    cases b with
    | true => exact ⟨'t', _, rfl, by decide, by decide⟩
    | false => exact ⟨'f', _, rfl, by decide, by decide⟩
  | num i =>
    show ∃ c cs, intToChars i = c :: cs ∧ _
    unfold intToChars
    by_cases hi : i < 0
    · rw [if_pos hi]
      exact ⟨'-', _, rfl, by decide, by decide⟩
    · rw [if_neg hi]
      obtain ⟨c, cs, hshape, hdig⟩ := natToChars_shape i.natAbs
      obtain ⟨hws, _, _, _, _, _, _, hne, _⟩ := digit_facts c hdig
      exact ⟨c, cs, hshape, hws, hne⟩
  | str s => exact ⟨'"', _, rfl, by decide, by decide⟩
  | arr xs => exact ⟨'[', _, rfl, by decide, by decide⟩
  | obj fs => exact ⟨'{', _, rfl, by decide, by decide⟩

theorem JsonWF.arr_elim {xs : List Json} (h : JsonWF (.arr xs)) : ∀ x ∈ xs, JsonWF x := by
  cases h
  assumption

theorem JsonWF.obj_elim_vals {fs : List (String × Json)} (h : JsonWF (.obj fs)) :
    ∀ p ∈ fs, JsonWF p.2 := by
  cases h
  assumption

theorem JsonWF.obj_elim_keys {fs : List (String × Json)} (h : JsonWF (.obj fs)) :
    (fs.map Prod.fst).Nodup := by
  cases h
  assumption

theorem membersChars_shape (k : String) (v : Json) (fs : List (String × Json)) :
    ∃ tail, membersChars ((k, v) :: fs) = '"' :: tail := by
  cases fs with
  | nil => exact ⟨_, rfl⟩
  | cons m ms => exact ⟨_, rfl⟩

theorem parseElemsGo_step (f : Nat) (acc : List Json) (cs : List Char)
    (v : Json) (r1 : List Char) (hv : parseValueGo f cs = some (v, r1)) :
    parseElemsGo (f + 1) acc cs =
      match skipWs r1 with
      | ',' :: r2 => parseElemsGo f (acc ++ [v]) r2
      | ']' :: r2 => some (.arr (acc ++ [v]), r2)
      | _ => none := by
  rw [parseElemsGo.eq_2, hv]

theorem parseMembersGo_step (f : Nat) (acc : List (String × Json))
    (cs cs' k r1 r2 : List Char) (v : Json) (r3 : List Char)
    (h0 : skipWs cs = '"' :: cs')
    (h1 : parseStringRest cs' = some (k, r1))
    (h2 : skipWs r1 = ':' :: r2)
    (h3 : parseValueGo f r2 = some (v, r3)) :
    parseMembersGo (f + 1) acc cs =
      match skipWs r3 with
      | ',' :: r4 => parseMembersGo f (objUpsert acc ⟨k⟩ v) r4
      | '}' :: r4 => some (.obj (objUpsert acc ⟨k⟩ v), r4)
      | _ => none := by
  rw [parseMembersGo.eq_2]
  simp only [h0, h1, h2, h3]

theorem nodup_key_fresh (acc : List (String × Json)) (k : String) (v : Json)
    (rest : List (String × Json))
    (h : ((acc ++ (k, v) :: rest).map Prod.fst).Nodup) :
    ∀ p ∈ acc, p.1 ≠ k := by
  intro p hp hpk
  rw [List.map_append] at h
  have hdis := (List.nodup_append.mp h).2.2
  exact hdis (List.mem_map.mpr ⟨p, hp, hpk⟩) (by simp)

theorem parse_complete (fuel : Nat) :
    (∀ j rest, JsonWF j → jsonFuel j ≤ fuel → headNotDigit rest →
      parseValueGo fuel (jsonStringifyChars j ++ rest) = some (j, rest)) ∧
    (∀ fields acc rest, fields ≠ [] → (∀ p ∈ fields, JsonWF p.2) →
      ((acc ++ fields).map Prod.fst).Nodup → membersFuel fields ≤ fuel →
      parseMembersGo fuel acc (membersChars fields ++ '}' :: rest) =
        some (.obj (acc ++ fields), rest)) ∧
    (∀ elems acc rest, elems ≠ [] → (∀ x ∈ elems, JsonWF x) → elemsFuel elems ≤ fuel →
      parseElemsGo fuel acc (elemsChars elems ++ ']' :: rest) =
        some (.arr (acc ++ elems), rest)) := by
  induction fuel with
  | zero =>
    refine ⟨?_, ?_, ?_⟩
    · intro j rest _ hf _
      exfalso
      cases j <;> simp [jsonFuel] at hf
    · intro fields _ _ hne _ _ hf
      exfalso
      cases fields with
      | nil => exact hne rfl
      | cons p ps => simp [membersFuel] at hf
    · intro elems _ _ hne _ hf
      exfalso
      cases elems with
      | nil => exact hne rfl
      | cons x xs => simp [elemsFuel] at hf
  | succ f ih =>
    obtain ⟨ihV, ihM, ihE⟩ := ih
    refine ⟨?_, ?_, ?_⟩
    · intro j rest hwf hf hrest
      cases j with
      | null =>
        show parseValueGo (f + 1) ('n' :: 'u' :: 'l' :: 'l' :: rest) = _
        rw [parseValueGo.eq_2]
        rw [show skipWs ('n' :: 'u' :: 'l' :: 'l' :: rest)
          = 'n' :: 'u' :: 'l' :: 'l' :: rest from
          List.dropWhile_cons_of_neg (by decide)]
        simp only []
        rw [if_neg (by decide), if_neg (by decide), if_neg (by decide),
          if_neg (by decide), if_neg (by decide), if_pos trivial]
      | bool b =>
        cases b with
        | true =>
          show parseValueGo (f + 1) ('t' :: 'r' :: 'u' :: 'e' :: rest) = _
          rw [parseValueGo.eq_2]
          rw [show skipWs ('t' :: 'r' :: 'u' :: 'e' :: rest)
            = 't' :: 'r' :: 'u' :: 'e' :: rest from
            List.dropWhile_cons_of_neg (by decide)]
          simp only []
          rw [if_neg (by decide), if_neg (by decide), if_neg (by decide),
            if_pos trivial]
        | false =>
          show parseValueGo (f + 1) ('f' :: 'a' :: 'l' :: 's' :: 'e' :: rest) = _
          rw [parseValueGo.eq_2]
          rw [show skipWs ('f' :: 'a' :: 'l' :: 's' :: 'e' :: rest)
            = 'f' :: 'a' :: 'l' :: 's' :: 'e' :: rest from
            List.dropWhile_cons_of_neg (by decide)]
          simp only []
          rw [if_neg (by decide), if_neg (by decide), if_neg (by decide),
            if_neg (by decide), if_pos trivial]
      | str s =>
        show parseValueGo (f + 1) (jsonQuoteChars s ++ rest) = _
        rw [show jsonQuoteChars s ++ rest
          = '"' :: (escapeChars s.data ++ '"' :: rest) by
          simp [jsonQuoteChars]]
        rw [parseValueGo.eq_2]
        rw [show skipWs ('"' :: (escapeChars s.data ++ '"' :: rest))
          = '"' :: (escapeChars s.data ++ '"' :: rest) from
          List.dropWhile_cons_of_neg (by decide)]
        simp only []
        rw [if_neg (by decide), if_neg (by decide), if_pos trivial,
          parseStringRest_escape s rest]
        simp only [Option.map_some']
      | num i =>
        show parseValueGo (f + 1) (intToChars i ++ rest) = _
        rw [parseValueGo.eq_2]
        by_cases hi : i < 0
        · rw [show intToChars i = '-' :: natToChars i.natAbs by
            unfold intToChars; rw [if_pos hi]]
          rw [List.cons_append]
          rw [show skipWs ('-' :: (natToChars i.natAbs ++ rest))
            = '-' :: (natToChars i.natAbs ++ rest) from
            List.dropWhile_cons_of_neg (by decide)]
          simp only []
          rw [if_neg (by decide), if_neg (by decide), if_neg (by decide),
            if_neg (by decide), if_neg (by decide), if_neg (by decide)]
          rw [← List.cons_append,
            show '-' :: natToChars i.natAbs = intToChars i by
              unfold intToChars; rw [if_pos hi]]
          rw [parseNumber_intToChars i rest hrest]
          rfl
        · obtain ⟨c, cs, hshape, hdig⟩ := natToChars_shape i.natAbs
          obtain ⟨hws, hbr, hbk, hqu, ht, hfa, hn, _, _⟩ := digit_facts c hdig
          rw [show intToChars i = c :: cs by
            unfold intToChars; rw [if_neg hi, hshape]]
          rw [List.cons_append]
          rw [show skipWs (c :: (cs ++ rest)) = c :: (cs ++ rest) from
            List.dropWhile_cons_of_neg (by simp [hws])]
          simp only []
          rw [if_neg hbr, if_neg hbk, if_neg hqu, if_neg ht, if_neg hfa, if_neg hn]
          rw [← List.cons_append, ← hshape,
            show natToChars i.natAbs = intToChars i by
              unfold intToChars; rw [if_neg hi]]
          rw [parseNumber_intToChars i rest hrest]
          rfl
      | arr xs =>
        show parseValueGo (f + 1) (('[' :: (elemsChars xs ++ [']'])) ++ rest) = _
        rw [List.cons_append, List.append_assoc, List.singleton_append]
        rw [parseValueGo.eq_2]
        rw [show skipWs ('[' :: (elemsChars xs ++ ']' :: rest))
          = '[' :: (elemsChars xs ++ ']' :: rest) from
          List.dropWhile_cons_of_neg (by decide)]
        simp only []
        rw [if_neg (by decide), if_pos trivial]
        cases xs with
        | nil =>
          show (match skipWs (']' :: rest) with
            | ']' :: r => some (Json.arr [], r)
            | r => parseElemsGo f [] r) = _
          rw [show skipWs (']' :: rest) = ']' :: rest from
            List.dropWhile_cons_of_neg (by decide)]
          rfl
        | cons x xs' =>
          obtain ⟨c, cs, hshape, hws, hne⟩ := stringify_head x
          have hwfx := JsonWF.arr_elim hwf
          have helems : ∃ tail, elemsChars (x :: xs') = c :: tail ∧
              c :: tail = elemsChars (x :: xs') := by
            cases xs' with
            | nil =>
              refine ⟨cs, ?_, ?_⟩ <;> simp [elemsChars, hshape]
            | cons y ys =>
              refine ⟨cs ++ ',' :: elemsChars (y :: ys), ?_, ?_⟩ <;>
                simp [elemsChars, hshape]
          obtain ⟨tail, htl, htl2⟩ := helems
          rw [htl, List.cons_append]
          rw [show skipWs (c :: (tail ++ ']' :: rest)) = c :: (tail ++ ']' :: rest)
            from List.dropWhile_cons_of_neg (by simp [hws])]
          have hgoal : parseElemsGo f [] (c :: (tail ++ ']' :: rest)) =
              some (Json.arr (x :: xs'), rest) := by
            rw [← List.cons_append, htl2]
            have := ihE (x :: xs') [] rest (by simp) hwfx
              (by simp [jsonFuel] at hf; omega)
            simpa using this
          split
          · rename_i r heq
            exfalso
            injection heq with h1 h2
            exact hne h1
          · exact hgoal
      | obj fs =>
        show parseValueGo (f + 1) (('{' :: (membersChars fs ++ ['}'])) ++ rest) = _
        rw [List.cons_append, List.append_assoc, List.singleton_append]
        rw [parseValueGo.eq_2]
        have hsk : skipWs ('{' :: (membersChars fs ++ '}' :: rest))
            = '{' :: (membersChars fs ++ '}' :: rest) :=
          List.dropWhile_cons_of_neg (by decide)
        simp only [hsk]
        rw [if_pos trivial]
        cases fs with
        | nil =>
          have hsk2 : skipWs ('}' :: rest) = '}' :: rest :=
            List.dropWhile_cons_of_neg (by decide)
          show (match skipWs ('}' :: rest) with
            | '}' :: r => some (Json.obj [], r)
            | r => parseMembersGo f [] r) = _
          rw [hsk2]
          rfl
        | cons p fields =>
          obtain ⟨k, v⟩ := p
          obtain ⟨tail, htail⟩ := membersChars_shape k v fields
          have hsk2 : skipWs (membersChars ((k, v) :: fields) ++ '}' :: rest)
              = membersChars ((k, v) :: fields) ++ '}' :: rest := by
            rw [htail, List.cons_append]
            exact List.dropWhile_cons_of_neg (by decide)
          simp only [hsk2]
          have hM := ihM ((k, v) :: fields) [] rest (by simp)
            (JsonWF.obj_elim_vals hwf)
            (by simpa using JsonWF.obj_elim_keys hwf)
            (by simp [jsonFuel] at hf; omega)
          rw [htail, List.cons_append]
          split
          · rename_i r heq
            exfalso
            injection heq with h1 _
            exact absurd h1 (by decide)
          · rw [← List.cons_append, ← htail, hM]
            simp
    · intro fields acc rest hne hvals hnodup hfM
      cases fields with
      | nil => exact absurd rfl hne
      | cons p fields' =>
        obtain ⟨k, v⟩ := p
        cases fields' with
        | nil =>
          have hin : membersChars [(k, v)] ++ '}' :: rest
              = '"' :: (escapeChars k.data ++ '"' ::
                (':' :: (jsonStringifyChars v ++ '}' :: rest))) := by
            show (jsonQuoteChars k ++ ':' :: jsonStringifyChars v) ++ '}' :: rest = _
            simp [jsonQuoteChars]
          rw [hin]
          have hstep := parseMembersGo_step f acc _
            (escapeChars k.data ++ '"' :: (':' :: (jsonStringifyChars v ++ '}' :: rest)))
            k.data (':' :: (jsonStringifyChars v ++ '}' :: rest))
            (jsonStringifyChars v ++ '}' :: rest) v ('}' :: rest)
            (List.dropWhile_cons_of_neg (by decide))
            (parseStringRest_escape k _)
            (List.dropWhile_cons_of_neg (by decide))
            (ihV v ('}' :: rest) (hvals (k, v) (by simp))
              (by simp [membersFuel] at hfM; omega)
              (headNotDigit_cons _ _ (by decide)))
          rw [hstep]
          have hsk : skipWs ('}' :: rest) = '}' :: rest :=
            List.dropWhile_cons_of_neg (by decide)
          simp only [hsk]
          rw [string_mk_data,
            objUpsert_fresh acc k v (nodup_key_fresh acc k v [] hnodup)]
        | cons m ms =>
          have hin : membersChars ((k, v) :: m :: ms) ++ '}' :: rest
              = '"' :: (escapeChars k.data ++ '"' ::
                (':' :: (jsonStringifyChars v ++ ',' ::
                  (membersChars (m :: ms) ++ '}' :: rest)))) := by
            show (jsonQuoteChars k ++ ':' :: jsonStringifyChars v ++ ',' ::
              membersChars (m :: ms)) ++ '}' :: rest = _
            simp [jsonQuoteChars]
          rw [hin]
          have hstep := parseMembersGo_step f acc _
            (escapeChars k.data ++ '"' :: (':' :: (jsonStringifyChars v ++ ',' ::
              (membersChars (m :: ms) ++ '}' :: rest))))
            k.data
            (':' :: (jsonStringifyChars v ++ ',' ::
              (membersChars (m :: ms) ++ '}' :: rest)))
            (jsonStringifyChars v ++ ',' :: (membersChars (m :: ms) ++ '}' :: rest))
            v (',' :: (membersChars (m :: ms) ++ '}' :: rest))
            (List.dropWhile_cons_of_neg (by decide))
            (parseStringRest_escape k _)
            (List.dropWhile_cons_of_neg (by decide))
            (ihV v _ (hvals (k, v) (by simp))
              (by simp [membersFuel] at hfM; omega)
              (headNotDigit_cons _ _ (by decide)))
          rw [hstep]
          have hsk : skipWs (',' :: (membersChars (m :: ms) ++ '}' :: rest))
              = ',' :: (membersChars (m :: ms) ++ '}' :: rest) :=
            List.dropWhile_cons_of_neg (by decide)
          simp only [hsk]
          rw [string_mk_data,
            objUpsert_fresh acc k v (nodup_key_fresh acc k v (m :: ms) hnodup)]
          have hM := ihM (m :: ms) (acc ++ [(k, v)]) rest (by simp)
            (fun q hq => hvals q (by simp [hq]))
            (by simpa [List.append_assoc] using hnodup)
            (by simp [membersFuel] at hfM ⊢; omega)
          rw [hM]
          simp
    · intro elems acc rest hne hwfall hfE
      cases elems with
      | nil => exact absurd rfl hne
      | cons x xs' =>
        cases xs' with
        | nil =>
          have hV := ihV x (']' :: rest) (hwfall x (by simp))
            (by simp [elemsFuel] at hfE; omega)
            (headNotDigit_cons _ _ (by decide))
          rw [show elemsChars [x] = jsonStringifyChars x from rfl]
          rw [parseElemsGo_step f acc _ x (']' :: rest) hV]
          have hsk : skipWs (']' :: rest) = ']' :: rest :=
            List.dropWhile_cons_of_neg (by decide)
          simp only [hsk]
        | cons y ys =>
          have hsplit : elemsChars (x :: y :: ys) ++ ']' :: rest
              = jsonStringifyChars x ++ ',' ::
                (elemsChars (y :: ys) ++ ']' :: rest) := by
            show (jsonStringifyChars x ++ ',' :: elemsChars (y :: ys)) ++ ']' :: rest = _
            simp
          rw [hsplit]
          have hV := ihV x (',' :: (elemsChars (y :: ys) ++ ']' :: rest))
            (hwfall x (by simp))
            (by simp [elemsFuel] at hfE; omega)
            (headNotDigit_cons _ _ (by decide))
          rw [parseElemsGo_step f acc _ x _ hV]
          have hsk : skipWs (',' :: (elemsChars (y :: ys) ++ ']' :: rest))
              = ',' :: (elemsChars (y :: ys) ++ ']' :: rest) :=
            List.dropWhile_cons_of_neg (by decide)
          simp only [hsk]
          have hE := ihE (y :: ys) (acc ++ [x]) rest (by simp)
            (fun z hz => hwfall z (by simp [hz]))
            (by simp [elemsFuel] at hfE ⊢; omega)
          rw [hE]
          simp

theorem intToChars_ne_nil (i : Int) : intToChars i ≠ [] := by
  unfold intToChars
  split
  · simp
  · exact natToChars_ne_nil _

theorem jsonFuel_le_len (j : Json) : jsonFuel j ≤ (jsonStringifyChars j).length := by
  refine jsonStringifyChars.induct
    (fun j => jsonFuel j ≤ (jsonStringifyChars j).length)
    (fun fs => membersFuel fs ≤ (membersChars fs).length + 1)
    (fun xs => elemsFuel xs ≤ (elemsChars xs).length + 1)
    ?_ ?_ ?_ ?_ ?_ ?_ ?_ ?_ ?_ ?_ ?_ ?_ ?_ j
  · simp [jsonFuel, jsonStringifyChars]
  · simp [jsonFuel, jsonStringifyChars]
  · simp [jsonFuel, jsonStringifyChars]
  · intro n
    have := intToChars_ne_nil n
    have hlen : 1 ≤ (intToChars n).length := by
      cases h : intToChars n with
      | nil => exact absurd h this
      | cons a l => simp
    simpa [jsonFuel, jsonStringifyChars] using hlen
  · intro s
    simp [jsonFuel, jsonStringifyChars, jsonQuoteChars]
  · intro xs ih
    simp only [jsonFuel, jsonStringifyChars, List.length_cons, List.length_append]
    simp at ih ⊢
    omega
  · intro fs ih
    simp only [jsonFuel, jsonStringifyChars, List.length_cons, List.length_append]
    simp at ih ⊢
    omega
  · simp [elemsFuel, elemsChars]
  · intro x ih
    simp only [elemsFuel, elemsChars, List.length_cons]
    simp [elemsFuel] at ih ⊢
    omega
  · intro x y rest ih1 ih2
    simp only [elemsFuel, elemsChars, List.length_append, List.length_cons] at ih1 ih2 ⊢
    omega
  · simp [membersFuel, membersChars]
  · intro k v ih
    simp only [membersFuel, membersChars, List.length_append, List.length_cons,
      jsonQuoteChars] at ih ⊢
    omega
  · intro k v m rest ih1 ih2
    simp only [membersFuel, membersChars, List.length_append, List.length_cons,
      jsonQuoteChars] at ih1 ih2 ⊢
    omega

theorem jsonParse_stringify (j : Json) (hwf : JsonWF j) :
    jsonParse (jsonStringify j) = some j := by
  unfold jsonParse jsonStringify
  rw [show (String.mk (jsonStringifyChars j)).data = jsonStringifyChars j from rfl]
  rw [show (String.mk (jsonStringifyChars j)).length
    = (jsonStringifyChars j).length from rfl]
  have hV := (parse_complete ((jsonStringifyChars j).length + 1)).1 j [] hwf
    (by have := jsonFuel_le_len j; omega) (by intro c hc; simp at hc)
  rw [show jsonStringifyChars j ++ ([] : List Char) = jsonStringifyChars j by simp]
    at hV
  rw [hV]
  simp [skipWs]

theorem decode_encodeJson (j : Json) (hwf : JsonWF j)
    (htru : jsTruthy j = true)
    (hmeth : isFieldStr j "method" "simple_phylogeny" = true)
    (hver : isFieldNum j "version" 1 = true) :
    decodeSimpleState (encodeJson j) = some j := by
  unfold decodeSimpleState encodeJson
  rw [codec_roundtrip (jsonStringify j), jsonParse_stringify j hwf]
  simp [htru, hmeth, hver]

theorem stateJson_wf (stage : SimpleStage) (c : String) (sj : Option String) :
    JsonWF (stateJson stage c sj) := by
  cases sj with
  | none =>
    refine JsonWF.obj _ ?_ ?_
    · intro p hp
      simp [stateJson] at hp
      rcases hp with rfl | rfl | rfl | rfl
      · exact JsonWF.num _
      · exact JsonWF.str _
      · exact JsonWF.str _
      · exact JsonWF.str _
    · simp [stateJson]
  | some s =>
    refine JsonWF.obj _ ?_ ?_
    · intro p hp
      simp [stateJson] at hp
      rcases hp with rfl | rfl | rfl | rfl | rfl
      · exact JsonWF.num _
      · exact JsonWF.str _
      · exact JsonWF.str _
      · exact JsonWF.str _
      · exact JsonWF.str _
    · simp [stateJson]

theorem stateJson_method (stage : SimpleStage) (c : String) (sj : Option String) :
    isFieldStr (stateJson stage c sj) "method" "simple_phylogeny" = true := by
  cases sj <;> simp [stateJson, isFieldStr, jsGetField, List.find?]

theorem stateJson_version (stage : SimpleStage) (c : String) (sj : Option String) :
    isFieldNum (stateJson stage c sj) "version" 1 = true := by
  cases sj <;> simp [stateJson, isFieldNum, jsGetField, List.find?]

theorem decode_encode_state (stage : SimpleStage) (c : String) (sj : Option String) :
    decodeSimpleState (encodeSimpleState stage c sj) = some (stateJson stage c sj) :=
  decode_encodeJson _ (stateJson_wf stage c sj) rfl
    (stateJson_method stage c sj) (stateJson_version stage c sj)

theorem objUpsert_vals (acc : List (String × Json)) (k : String) (v : Json) :
    ∀ p ∈ objUpsert acc k v, p.2 = v ∨ p ∈ acc := by
  unfold objUpsert
  split
  · intro p hp
    simp only [List.mem_map] at hp
    obtain ⟨q, hq, hpq⟩ := hp
    by_cases hqk : q.1 == k
    · rw [if_pos hqk] at hpq
      left
      rw [← hpq]
    · rw [if_neg hqk] at hpq
      right
      rw [← hpq]
      exact hq
  · intro p hp
    simp only [List.mem_append, List.mem_singleton] at hp
    rcases hp with hp | hp
    · right; exact hp
    · left; rw [hp]

theorem objUpsert_keys (acc : List (String × Json)) (k : String) (v : Json)
    (h : (acc.map Prod.fst).Nodup) : ((objUpsert acc k v).map Prod.fst).Nodup := by
  unfold objUpsert
  split
  · rename_i hany
    have : (acc.map (fun p => if p.1 == k then (k, v) else p)).map Prod.fst
        = acc.map Prod.fst := by
      rw [List.map_map]
      apply List.map_congr_left
      intro p _
      by_cases hpk : p.1 == k
      · simp only [Function.comp_apply, if_pos hpk]
        exact (eq_of_beq hpk).symm
      · simp only [Function.comp_apply, if_neg hpk]
    rw [this]
    exact h
  · rename_i hany
    simp only [List.map_append, List.map_cons, List.map_nil]
    rw [List.nodup_append]
    refine ⟨h, by simp, ?_⟩
    intro a ha
    simp only [List.mem_singleton]
    intro hak
    subst hak
    simp only [List.mem_map] at ha
    obtain ⟨p, hp, hpa⟩ := ha
    apply hany
    simp only [List.any_eq_true]
    exact ⟨p, hp, by simp [hpa]⟩

theorem parse_sound (fuel : Nat) :
    (∀ cs j rest, parseValueGo fuel cs = some (j, rest) → JsonWF j) ∧
    (∀ acc cs j rest, (∀ p ∈ acc, JsonWF p.2) → (acc.map Prod.fst).Nodup →
      parseMembersGo fuel acc cs = some (j, rest) → JsonWF j) ∧
    (∀ acc cs j rest, (∀ x ∈ acc, JsonWF x) →
      parseElemsGo fuel acc cs = some (j, rest) → JsonWF j) := by
  induction fuel with
  | zero =>
    refine ⟨?_, ?_, ?_⟩
    · intro cs j rest h
      exact absurd h (by simp [parseValueGo])
    · intro acc cs j rest _ _ h
      exact absurd h (by simp [parseMembersGo])
    · intro acc cs j rest _ h
      exact absurd h (by simp [parseElemsGo])
  | succ f ih =>
    obtain ⟨ihV, ihM, ihE⟩ := ih
    refine ⟨?_, ?_, ?_⟩
    · intro cs j rest h
      rw [parseValueGo.eq_2] at h
      split at h
      · exact absurd h (by simp)
      · rename_i c cs' heq
        split at h
        · split at h
          · injection h with h'
            injection h' with h1 _
            subst h1
            exact JsonWF.obj _ (by simp) (by simp)
          · exact ihM [] _ j rest (by simp) (by simp) h
        · split at h
          · split at h
            · injection h with h'
              injection h' with h1 _
              subst h1
              exact JsonWF.arr _ (by simp)
            · exact ihE [] _ j rest (by simp) h
          · split at h
            · cases hps : parseStringRest cs' with
              | none => rw [hps] at h; exact absurd h (by simp)
              | some p =>
                rw [hps] at h
                simp only [Option.map_some'] at h
                injection h with h'
                injection h' with h1 _
                subst h1
                exact JsonWF.str _
            · split at h
              · split at h
                · injection h with h'
                  injection h' with h1 _
                  subst h1
                  exact JsonWF.bool _
                · exact absurd h (by simp)
              · split at h
                · split at h
                  · injection h with h'
                    injection h' with h1 _
                    subst h1
                    exact JsonWF.bool _
                  · exact absurd h (by simp)
                · split at h
                  · split at h
                    · injection h with h'
                      injection h' with h1 _
                      subst h1
                      exact JsonWF.null
                    · exact absurd h (by simp)
                  · cases hpn : parseNumber (c :: cs') with
                    | none => rw [hpn] at h; exact absurd h (by simp)
                    | some p =>
                      rw [hpn] at h
                      simp only [Option.map_some'] at h
                      injection h with h'
                      injection h' with h1 _
                      subst h1
                      exact JsonWF.num _
    · intro acc cs j rest hvals hkeys h
      rw [parseMembersGo.eq_2] at h
      split at h
      · rename_i cs' heq
        split at h
        · rename_i k r1 heq1
          split at h
          · rename_i r2 heq2
            split at h
            · rename_i v r3 heq3
              have hvwf := ihV _ _ _ heq3
              have hvals' : ∀ p ∈ objUpsert acc ⟨k⟩ v, JsonWF p.2 := by
                intro p hp
                rcases objUpsert_vals acc ⟨k⟩ v p hp with h2 | h2
                · rw [h2]; exact hvwf
                · exact hvals p h2
              have hkeys' := objUpsert_keys acc ⟨k⟩ v hkeys
              split at h
              · exact ihM _ _ j rest hvals' hkeys' h
              · injection h with h'
                injection h' with h1 _
                subst h1
                exact JsonWF.obj _ hvals' hkeys'
              · exact absurd h (by simp)
            · exact absurd h (by simp)
          · exact absurd h (by simp)
        · exact absurd h (by simp)
      · exact absurd h (by simp)
    · intro acc cs j rest hvals h
      rw [parseElemsGo.eq_2] at h
      split at h
      · rename_i v r1 heq1
        have hvwf := ihV _ _ _ heq1
        have hvals' : ∀ x ∈ acc ++ [v], JsonWF x := by
          intro x hx
          rcases List.mem_append.mp hx with h2 | h2
          · exact hvals x h2
          · rw [List.mem_singleton.mp h2]; exact hvwf
        split at h
        · exact ihE _ _ j rest hvals' h
        · injection h with h'
          injection h' with h1 _
          subst h1
          exact JsonWF.arr _ hvals'
        · exact absurd h (by simp)
      · exact absurd h (by simp)

theorem jsonParse_wf (s : String) (j : Json) (h : jsonParse s = some j) : JsonWF j := by
  unfold jsonParse at h
  cases hv : parseValueGo (s.length + 1) s.data with
  | none => rw [hv] at h; exact absurd h (by simp)
  | some p =>
    obtain ⟨j', rest'⟩ := p
    rw [hv] at h
    split at h
    · rename_i v r3 heq
      injection heq with hpair
      injection hpair with hjv hr
      split at h
      · injection h with h1
        subst h1
        rw [← hjv]
        exact (parse_sound _).1 _ _ _ hv
      · exact absurd h (by simp)
    · rename_i heq
      exact absurd heq (by simp)

theorem decodeSimpleState_facts (t : String) (j : Json)
    (h : decodeSimpleState t = some j) :
    JsonWF j ∧ jsTruthy j = true ∧
      isFieldStr j "method" "simple_phylogeny" = true ∧
      isFieldNum j "version" 1 = true := by
  unfold decodeSimpleState at h
  cases hp : jsonParse (utf8Decode (b64urlDecode t)) with
  | none => rw [hp] at h; exact absurd h (by simp)
  | some p =>
    rw [hp] at h
    split at h
    · rename_i heq
      exact absurd heq (by simp)
    · rename_i j2 heq
      injection heq with hpj
      subst hpj
      split at h
      · rename_i hcond
        injection h with h1
        subst h1
        simp only [Bool.and_eq_true] at hcond
        exact ⟨jsonParse_wf _ _ hp, hcond.1.1, hcond.1.2, hcond.2⟩
      · exact absurd h (by simp)

theorem find_map_replace (k : String) (v : Json) :
    ∀ fs : List (String × Json), fs.any (fun p => p.1 == k) = true →
    (fs.map (fun p => if p.1 == k then (k, v) else p)).find? (fun p => p.1 == k)
      = some (k, v) := by
  intro fs
  induction fs with
  | nil => simp
  | cons q fs ih =>
    intro hany
    by_cases hqk : (q.1 == k) = true
    · simp only [List.map_cons, if_pos hqk]
      have : List.find? (fun p => p.1 == k)
          ((k, v) :: fs.map (fun p => if p.1 == k then (k, v) else p))
          = some (k, v) := List.find?_cons_of_pos _ (by simp)
      exact this
    · simp only [List.map_cons, if_neg hqk]
      have hstep : List.find? (fun p => p.1 == k)
          (q :: fs.map (fun p => if p.1 == k then (k, v) else p))
          = List.find? (fun p => p.1 == k)
            (fs.map (fun p => if p.1 == k then (k, v) else p)) :=
        List.find?_cons_of_neg _ hqk
      rw [hstep]
      apply ih
      simp only [List.any_cons, hqk, Bool.false_or] at hany
      exact hany

theorem find_none_of_not_any (k : String) (fs : List (String × Json))
    (hany : ¬fs.any (fun p => p.1 == k) = true) :
    fs.find? (fun p => p.1 == k) = none := by
  rw [List.find?_eq_none]
  intro p hp
  simp only [List.any_eq_true, not_exists, not_and] at hany
  exact fun hc => hany p hp hc

theorem jsGetField_obj (fsx : List (String × Json)) (k : String) :
    jsGetField (.obj fsx) k = (fsx.find? (fun p => p.1 == k)).map (·.2) := rfl

theorem jsGetField_objUpsert_self (fs : List (String × Json)) (k : String) (v : Json) :
    jsGetField (.obj (objUpsert fs k v)) k = some v := by
  rw [jsGetField_obj]
  unfold objUpsert
  split
  · rename_i hany
    rw [find_map_replace k v fs hany]
    rfl
  · rename_i hany
    rw [List.find?_append, find_none_of_not_any k fs hany]
    simp

theorem find_map_replace_other (k k2 : String) (v : Json) (h : k2 ≠ k) :
    ∀ fs : List (String × Json),
    List.find? (fun p => p.1 == k2) (fs.map (fun p => if p.1 == k then (k, v) else p))
      = List.find? (fun p => p.1 == k2) fs := by
  intro fs
  induction fs with
  | nil => simp
  | cons q fs ih =>
    by_cases hqk : (q.1 == k) = true
    · simp only [List.map_cons, if_pos hqk]
      have hq1 : q.1 = k := eq_of_beq hqk
      have hk2 : ¬(((k, v) : String × Json).1 == k2) = true := by
        simp only [beq_iff_eq]
        exact fun hc => h hc.symm
      have hq2 : ¬(q.1 == k2) = true := by
        simp only [hq1, beq_iff_eq]
        exact fun hc => h hc.symm
      have e1 : List.find? (fun p => p.1 == k2)
          ((k, v) :: fs.map (fun p => if p.1 == k then (k, v) else p))
          = List.find? (fun p => p.1 == k2)
            (fs.map (fun p => if p.1 == k then (k, v) else p)) :=
        List.find?_cons_of_neg _ hk2
      have e2 : List.find? (fun p => p.1 == k2) (q :: fs)
          = List.find? (fun p => p.1 == k2) fs :=
        List.find?_cons_of_neg _ hq2
      rw [e1, e2]
      exact ih
    · simp only [List.map_cons, if_neg hqk]
      by_cases hq2 : (q.1 == k2) = true
      · have e1 : List.find? (fun p => p.1 == k2)
            (q :: fs.map (fun p => if p.1 == k then (k, v) else p)) = some q :=
          List.find?_cons_of_pos _ hq2
        have e2 : List.find? (fun p => p.1 == k2) (q :: fs) = some q :=
          List.find?_cons_of_pos _ hq2
        rw [e1, e2]
      · have e1 : List.find? (fun p => p.1 == k2)
            (q :: fs.map (fun p => if p.1 == k then (k, v) else p))
            = List.find? (fun p => p.1 == k2)
              (fs.map (fun p => if p.1 == k then (k, v) else p)) :=
          List.find?_cons_of_neg _ hq2
        have e2 : List.find? (fun p => p.1 == k2) (q :: fs)
            = List.find? (fun p => p.1 == k2) fs :=
          List.find?_cons_of_neg _ hq2
        rw [e1, e2]
        exact ih

theorem jsGetField_objUpsert_other (fs : List (String × Json)) (k : String)
    (v : Json) (k2 : String) (h : k2 ≠ k) :
    jsGetField (.obj (objUpsert fs k v)) k2 = jsGetField (.obj fs) k2 := by
  rw [jsGetField_obj, jsGetField_obj]
  unfold objUpsert
  split
  · congr 1
    exact find_map_replace_other k k2 v h fs
  · congr 1
    rw [List.find?_append]
    have hlast : ([((k, v) : String × Json)].find? (fun p => p.1 == k2)) = none := by
      simp only [List.find?_singleton]
      rw [if_neg]
      simp only [beq_iff_eq]
      exact fun hc => h hc.symm
    rw [hlast]
    simp

theorem isFieldStr_to_getField (j : Json) (k v : String)
    (h : isFieldStr j k v = true) : jsGetField j k = some (.str v) := by
  unfold isFieldStr at h
  split at h
  · rename_i s heq
    rw [heq]
    congr 2
    exact eq_of_beq h
  · exact absurd h (by simp)

theorem isFieldNum_to_getField (j : Json) (k : String) (n : Int)
    (h : isFieldNum j k n = true) : jsGetField j k = some (.num n) := by
  unfold isFieldNum at h
  split at h
  · rename_i m heq
    rw [heq]
    congr 2
    exact eq_of_beq h
  · exact absurd h (by simp)

theorem getField_to_isFieldStr (j : Json) (k v : String)
    (h : jsGetField j k = some (.str v)) : isFieldStr j k v = true := by
  unfold isFieldStr
  rw [h]
  simp

theorem getField_to_isFieldNum (j : Json) (k : String) (n : Int)
    (h : jsGetField j k = some (.num n)) : isFieldNum j k n = true := by
  unfold isFieldNum
  rw [h]
  simp

theorem getField_obj_exists (j : Json) (k : String) (x : Json)
    (h : jsGetField j k = some x) : ∃ fs, j = .obj fs := by
  cases j <;> simp [jsGetField] at h
  exact ⟨_, rfl⟩

theorem submitRun_ok_ne_empty (label : String) (r : HttpResponse) (s : String)
    (h : submitRun label r = .ok s) : s ≠ "" := by
  unfold submitRun at h
  split at h
  · exact absurd h (by simp)
  · dsimp only [] at h
    split at h
    · exact absurd h (by simp)
    · rename_i hne
      injection h with h1
      rw [← h1]
      exact hne

theorem submitRun_ok_trim (label : String) (r : HttpResponse) (s : String)
    (h : submitRun label r = .ok s) : s = jsTrim r.body := by
  unfold submitRun at h
  split at h
  · exact absurd h (by simp)
  · dsimp only [] at h
    split at h
    · exact absurd h (by simp)
    · injection h with h1
      exact h1.symm

theorem stateJson_clustal (stage : SimpleStage) (c : String) (sj : Option String) :
    jsGetField (stateJson stage c sj) "clustalJobId" = some (.str c) := by
  cases sj <;> simp [stateJson, jsGetField, List.find?]

theorem stateJson_stage (stage : SimpleStage) (c : String) (sj : Option String) :
    jsGetField (stateJson stage c sj) "stage" = some (.str stage.toStr) := by
  cases sj <;> simp [stateJson, jsGetField, List.find?]

theorem stateJson_simple_none (stage : SimpleStage) (c : String) :
    jsGetField (stateJson stage c none) "simpleJobId" = none := by
  simp [stateJson, jsGetField, List.find?]

theorem stateJson_simple_some (stage : SimpleStage) (c s : String) :
    jsGetField (stateJson stage c (some s)) "simpleJobId" = some (.str s) := by
  simp [stateJson, jsGetField, List.find?]

theorem nextState_decode (st : Json) (fs : List (String × Json)) (sid : String)
    (hobj : st = .obj fs) (hwf : JsonWF st)
    (hmeth : isFieldStr st "method" "simple_phylogeny" = true)
    (hver : isFieldNum st "version" 1 = true) :
    decodeSimpleState (encodeJson (Json.obj (objUpsert
        (objUpsert (jsSpread st) "stage" (.str "tree"))
        "simpleJobId" (.str sid)))) =
      some (Json.obj (objUpsert (objUpsert (jsSpread st) "stage" (.str "tree"))
        "simpleJobId" (.str sid))) := by
  subst hobj
  have hspread : jsSpread (Json.obj fs) = fs := rfl
  rw [hspread]
  set inner := objUpsert fs "stage" (.str "tree") with hinner
  set outer := objUpsert inner "simpleJobId" (.str sid) with houter
  have hwfv := JsonWF.obj_elim_vals hwf
  have hwfk := JsonWF.obj_elim_keys hwf
  have hinner_vals : ∀ p ∈ inner, JsonWF p.2 := by
    intro p hp
    rcases objUpsert_vals fs "stage" (.str "tree") p hp with h2 | h2
    · rw [h2]; exact JsonWF.str _
    · exact hwfv p h2
  have hinner_keys := objUpsert_keys fs "stage" (.str "tree") hwfk
  have houter_vals : ∀ p ∈ outer, JsonWF p.2 := by
    intro p hp
    rcases objUpsert_vals inner "simpleJobId" (.str sid) p hp with h2 | h2
    · rw [h2]; exact JsonWF.str _
    · exact hinner_vals p h2
  have houter_keys := objUpsert_keys inner "simpleJobId" (.str sid) hinner_keys
  have hmeth2 : jsGetField (Json.obj outer) "method" = some (.str "simple_phylogeny") := by
    rw [houter, jsGetField_objUpsert_other _ _ _ _ (by decide), hinner,
      jsGetField_objUpsert_other _ _ _ _ (by decide)]
    exact isFieldStr_to_getField _ _ _ hmeth
  have hver2 : jsGetField (Json.obj outer) "version" = some (.num 1) := by
    rw [houter, jsGetField_objUpsert_other _ _ _ _ (by decide), hinner,
      jsGetField_objUpsert_other _ _ _ _ (by decide)]
    exact isFieldNum_to_getField _ _ _ hver
  exact decode_encodeJson _ (JsonWF.obj _ houter_vals houter_keys) rfl
    (getField_to_isFieldStr _ _ _ hmeth2) (getField_to_isFieldNum _ _ _ hver2)

theorem nextState_fields (fs : List (String × Json)) (sid : String) :
    jsGetField (Json.obj (objUpsert (objUpsert fs "stage" (.str "tree"))
        "simpleJobId" (.str sid))) "stage" = some (.str "tree") ∧
    jsGetField (Json.obj (objUpsert (objUpsert fs "stage" (.str "tree"))
        "simpleJobId" (.str sid))) "simpleJobId" = some (.str sid) ∧
    jsGetField (Json.obj (objUpsert (objUpsert fs "stage" (.str "tree"))
        "simpleJobId" (.str sid))) "clustalJobId" = jsGetField (Json.obj fs) "clustalJobId" := by
  refine ⟨?_, ?_, ?_⟩
  · rw [jsGetField_objUpsert_other _ _ _ _ (by decide), jsGetField_objUpsert_self]
  · rw [jsGetField_objUpsert_self]
  · rw [jsGetField_objUpsert_other _ _ _ _ (by decide),
      jsGetField_objUpsert_other _ _ _ _ (by decide)]

theorem pdbFetchFrom_attempts_le (oracle : Nat → AttemptOutcome) (retries : Nat) :
    ∀ fuel attempt, (pdbFetchFrom oracle retries attempt fuel).2 ≤ fuel := by
  intro fuel
  induction fuel with
  | zero => intro attempt; simp [pdbFetchFrom]
  | succ f ih =>
    intro attempt
    have key : ∀ a : Nat,
        (match pdbFetchFrom oracle retries (a + 1) f with
          | (r, n) => ((r, n + 1) : FetchResult × Nat)).2 ≤ f + 1 := by
      intro a
      have hle := ih (a + 1)
      cases hp : pdbFetchFrom oracle retries (a + 1) f with
      | mk r n =>
        rw [hp] at hle
        simpa using hle
    rw [pdbFetchFrom]
    split
    · split
      · exact key attempt
      · simp
    · split
      · exact key attempt
      · simp
    · split
      · exact key attempt
      · simp
    · simp

/-- C4 counterexample: the phylogeny pipeline's own `fetchWithTimeout`
performs a single attempt and hands back the transient 503 even though
a retry would have obtained the 200, while the PDB viewer's wrapper
(which the pipeline does not use) does retry. -/
theorem C4_counterexample :
    phyloFetchWithTimeout oracle503 = (.response 503, 1) ∧
    pdbFetchWithTimeout oracle503 = (.response 200, 2) := by
  constructor
  · rfl
  · decide

/-- C4 amended: the phylogeny pipeline's fetch wrapper performs exactly
one attempt (timeout only, never a retry); bounded retry exists only in
the PDB viewer's wrapper, which never retries a non-retryable status
and performs at most `retries + 1` attempts. -/
theorem C4_amended :
    (∀ oracle : Nat → AttemptOutcome, (phyloFetchWithTimeout oracle).2 = 1) ∧
    (∀ (oracle : Nat → AttemptOutcome) (s : Nat), oracle 0 = .resp s →
      retryableStatus s = false → pdbFetchWithTimeout oracle = (.response s, 1)) ∧
    (∀ (oracle : Nat → AttemptOutcome) (retries : Nat),
      (pdbFetchWithTimeout oracle retries).2 ≤ retries + 1) := by
  refine ⟨?_, ?_, ?_⟩
  · intro oracle
    rfl
  · intro oracle s h0 hret
    unfold pdbFetchWithTimeout
    rw [pdbFetchFrom, h0]
    simp [hret]
  · intro oracle retries
    exact pdbFetchFrom_attempts_le oracle retries (retries + 1) 0

theorem C4_amended_witness :
    (phyloFetchWithTimeout oracle503).2 = 1 ∧
    pdbFetchWithTimeout oracle404 = (.response 404, 1) ∧
    (pdbFetchWithTimeout oracle503 2).2 ≤ 3 := by
  refine ⟨C4_amended.1 oracle503, ?_, C4_amended.2.2 oracle503 2⟩
  exact C4_amended.2.1 oracle404 404 rfl (by decide)

/-- C5 counterexample: a success body that is none of the four statuses
is returned verbatim (`body as PhyloStatus` is an unchecked cast), so
`getJobStatus` does not return exactly one of the four statuses. -/
theorem C5_counterexample :
    getJobStatus "job1" ⟨200, "NOT_FOUND", ""⟩ = .ok "NOT_FOUND" ∧
    ("NOT_FOUND" ≠ "RUNNING" ∧ "NOT_FOUND" ≠ "FINISHED" ∧
      "NOT_FOUND" ≠ "FAILURE" ∧ "NOT_FOUND" ≠ "PENDING") :=
  ⟨rfl, by decide⟩

/-- C5 amended: 404 yields PENDING, any other non-success throws, an
empty trimmed success body yields PENDING, and otherwise `getJobStatus`
returns the trimmed body verbatim — one of the four statuses exactly
when the remote reports one. -/
theorem C5_amended : ∀ (jobId : String) (r : HttpResponse),
    (r.status = 404 → getJobStatus jobId r = .ok "PENDING") ∧
    (r.status ≠ 404 → r.ok = false → ∃ e, getJobStatus jobId r = .error e) ∧
    (r.status ≠ 404 → r.ok = true → jsTrim r.body = "" →
      getJobStatus jobId r = .ok "PENDING") ∧
    (r.status ≠ 404 → r.ok = true → jsTrim r.body ≠ "" →
      getJobStatus jobId r = .ok (jsTrim r.body)) ∧
    (∀ s, getJobStatus jobId r = .ok s → s = "PENDING" ∨ s = jsTrim r.body) := by
  intro jobId r
  refine ⟨?_, ?_, ?_, ?_, ?_⟩
  · intro h404
    unfold getJobStatus
    rw [if_pos h404]
  · intro h404 hok
    unfold getJobStatus
    rw [if_neg h404]
    dsimp only []
    rw [if_pos (by simp [hok])]
    exact ⟨_, rfl⟩
  · intro h404 hok hempty
    unfold getJobStatus
    rw [if_neg h404]
    dsimp only []
    rw [if_neg (by simp [hok]), if_pos hempty]
  · intro h404 hok hne
    unfold getJobStatus
    rw [if_neg h404]
    dsimp only []
    rw [if_neg (by simp [hok]), if_neg hne]
  · intro s h
    unfold getJobStatus at h
    split at h
    · injection h with h1
      left
      exact h1.symm
    · dsimp only [] at h
      split at h
      · exact absurd h (by simp)
      · split at h
        · injection h with h1
          left
          exact h1.symm
        · injection h with h1
          right
          exact h1.symm

theorem C5_amended_witness :
    getJobStatus "j" ⟨404, "irrelevant", ""⟩ = .ok "PENDING" ∧
    (∃ e, getJobStatus "j" ⟨500, "boom", ""⟩ = .error e) ∧
    getJobStatus "j" ⟨200, "   ", ""⟩ = .ok "PENDING" ∧
    getJobStatus "j" ⟨200, " FINISHED ", ""⟩ = .ok "FINISHED" := by
  refine ⟨(C5_amended "j" ⟨404, "irrelevant", ""⟩).1 rfl,
    (C5_amended "j" ⟨500, "boom", ""⟩).2.1 (by decide) rfl,
    (C5_amended "j" ⟨200, "   ", ""⟩).2.2.1 (by decide) rfl rfl, ?_⟩
  have h := (C5_amended "j" ⟨200, " FINISHED ", ""⟩).2.2.2.1 (by decide) rfl
    (by decide)
  rw [show jsTrim " FINISHED " = "FINISHED" from rfl] at h
  exact h

/-- C8: the PDB viewer's resilient fetch returns the eventual 200 after
a transient 503 within the default retry budget, and returns a 404
immediately with a single attempt. -/
theorem C8_retry_behavior :
    (∀ oracle : Nat → AttemptOutcome, oracle 0 = .resp 503 → oracle 1 = .resp 200 →
      pdbFetchWithTimeout oracle = (.response 200, 2)) ∧
    (∀ oracle : Nat → AttemptOutcome, oracle 0 = .resp 404 →
      pdbFetchWithTimeout oracle = (.response 404, 1)) := by
  constructor
  · intro oracle h0 h1
    unfold pdbFetchWithTimeout
    rw [pdbFetchFrom, h0, pdbFetchFrom, h1]
    rfl
  · intro oracle h0
    unfold pdbFetchWithTimeout
    rw [pdbFetchFrom, h0]
    rfl

theorem C8_retry_behavior_witness :
    pdbFetchWithTimeout oracle503 = (.response 200, 2) ∧
    pdbFetchWithTimeout oracle404 = (.response 404, 1) :=
  ⟨C8_retry_behavior.1 oracle503 rfl rfl, C8_retry_behavior.2 oracle404 rfl⟩

/-- C2: decoding the encoding of any composite pipeline state returns
exactly that state. -/
theorem C2_roundtrip (stage : SimpleStage) (clustalJobId : String)
    (simpleJobId : Option String) :
    decodeSimpleState (encodeSimpleState stage clustalJobId simpleJobId)
      = some (stateJson stage clustalJobId simpleJobId) :=
  decode_encode_state stage clustalJobId simpleJobId

/-- C3 counterexample: a token not produced by `encodeSimpleState` (its
payload carries only the two tag fields) nevertheless decodes to a
non-null state, so decoding does not return null on *every* string
outside the encoder's image. -/
theorem C3_counterexample :
    (¬ ∃ (stage : SimpleStage) (c : String) (sj : Option String),
      encodeSimpleState stage c sj
        = "eyJ2ZXJzaW9uIjoxLCJtZXRob2QiOiJzaW1wbGVfcGh5bG9nZW55In0") ∧
    decodeSimpleState "eyJ2ZXJzaW9uIjoxLCJtZXRob2QiOiJzaW1wbGVfcGh5bG9nZW55In0"
      ≠ none := by
  have h2 : decodeSimpleState "eyJ2ZXJzaW9uIjoxLCJtZXRob2QiOiJzaW1wbGVfcGh5bG9nZW55In0"
      = some (.obj [("version", .num 1), ("method", .str "simple_phylogeny")]) := rfl
  constructor
  · rintro ⟨stage, c, sj, he⟩
    have h1 := decode_encode_state stage c sj
    rw [he, h2] at h1
    injection h1 with h3
    cases stage <;> cases sj <;> simp [stateJson, SimpleStage.toStr] at h3
  · rw [h2]
    simp

/-- C3 amended: `decodeSimpleState` is total (never throws) and fails
soft to `none` exactly on parse failure or tag mismatch: every decoded
state carries the matching `method` and `version` tags, and a bare
alphanumeric job identifier, a malformed token, and a payload with a
mismatched version tag all decode to `none`. -/
theorem C3_amended :
    (∀ token : String, decodeSimpleState token = none ∨
      ∃ j, decodeSimpleState token = some j ∧
        isFieldStr j "method" "simple_phylogeny" = true ∧
        isFieldNum j "version" 1 = true) ∧
    decodeSimpleState "clustalo-R20240101-123456-0001-12345678-p1m" = none ∧
    decodeSimpleState "!!!not-a-token!!!" = none ∧
    decodeSimpleState "eyJ2ZXJzaW9uIjoyLCJtZXRob2QiOiJzaW1wbGVfcGh5bG9nZW55Iiwic3RhZ2UiOiJhbGlnbm1lbnQiLCJjbHVzdGFsSm9iSWQiOiJKIn0" = none := by
  refine ⟨?_, rfl, rfl, rfl⟩
  intro token
  cases h : decodeSimpleState token with
  | none => exact Or.inl rfl
  | some j =>
    right
    have hf := decodeSimpleState_facts token j h
    exact ⟨j, rfl, hf.2.2.1, hf.2.2.2⟩

/-- The first request an alignment-stage poll issues is always the
status query for the (stringified) `clustalJobId` field. -/
theorem workflow_alignment_first_request (env : Env) (state : Json) (token : String)
    (hstage : isFieldStr state "stage" "alignment" = true) :
    ∃ l, (handleSimplePhylogenyWorkflow env state token).2
      = Request.clustalStatus (jsToString (jsGetField state "clustalJobId")) :: l := by
  unfold handleSimplePhylogenyWorkflow
  rw [if_pos hstage]
  dsimp only []
  split
  · exact ⟨_, rfl⟩
  · split
    · split
      · exact ⟨_, rfl⟩
      · split
        · exact ⟨_, rfl⟩
        · exact ⟨_, rfl⟩
    · split
      · exact ⟨_, rfl⟩
      · exact ⟨_, rfl⟩

/-- C10: `decodeSimpleState` validates only the two tag fields; a
crafted token with no `clustalJobId` decodes to a non-null state and
reaches the polling workflow, which then issues a remote status query
for the literal id `undefined` instead of rejecting the token. -/
theorem C10_tags_only_validation :
    ∃ j, decodeSimpleState
        "eyJ2ZXJzaW9uIjoxLCJtZXRob2QiOiJzaW1wbGVfcGh5bG9nZW55Iiwic3RhZ2UiOiJhbGlnbm1lbnQifQ"
        = some j ∧
      jsGetField j "clustalJobId" = none ∧
      ∀ env : Env, ∃ l,
        (handleSimplePhylogenyWorkflow env j
          "eyJ2ZXJzaW9uIjoxLCJtZXRob2QiOiJzaW1wbGVfcGh5bG9nZW55Iiwic3RhZ2UiOiJhbGlnbm1lbnQifQ").2
          = Request.clustalStatus "undefined" :: l := by
  refine ⟨.obj [("version", .num 1), ("method", .str "simple_phylogeny"),
    ("stage", .str "alignment")], rfl, rfl, ?_⟩
  intro env
  have h := workflow_alignment_first_request env
    (.obj [("version", .num 1), ("method", .str "simple_phylogeny"),
      ("stage", .str "alignment")])
    "eyJ2ZXJzaW9uIjoxLCJtZXRob2QiOiJzaW1wbGVfcGh5bG9nZW55Iiwic3RhZ2UiOiJhbGlnbm1lbnQifQ"
    rfl
  simpa using h

/-- C6: a tree-stage state with `simpleJobId` absent yields an
immediate FAILURE envelope with an empty request log. -/
theorem C6_missing_simple_job (env : Env) (state : Json) (token : String)
    (hdec : decodeSimpleState token = some state)
    (hstage : isFieldStr state "stage" "tree" = true)
    (hsid : jsGetField state "simpleJobId" = none) :
    ∃ p, handleSimplePhylogenyWorkflow env state token = (.ok p, []) ∧
      p.status = .FAILURE := by
  have hget := isFieldStr_to_getField _ _ _ hstage
  have hal : ¬isFieldStr state "stage" "alignment" = true := by
    unfold isFieldStr
    rw [hget]
    simp
  unfold handleSimplePhylogenyWorkflow
  rw [if_neg hal, if_pos hstage]
  rw [show jsFalsyField (jsGetField state "simpleJobId") = true by
    rw [hsid]; rfl]
  exact ⟨_, rfl, rfl⟩

theorem C6_missing_simple_job_witness :
    ∃ p, handleSimplePhylogenyWorkflow (fun _ => ⟨500, "", ""⟩)
        (stateJson .tree "J9" none) (encodeSimpleState .tree "J9" none)
        = (.ok p, []) ∧ p.status = .FAILURE :=
  C6_missing_simple_job (fun _ => ⟨500, "", ""⟩) (stateJson .tree "J9" none)
    (encodeSimpleState .tree "J9" none)
    (decode_encode_state .tree "J9" none) rfl rfl

/-- C1: polling an alignment-stage composite state whose Clustal job
reports FINISHED either fails with a thrown error (fetch or submission
failure) or returns a RUNNING envelope whose `jobId` is a new composite
token decoding to a tree-stage state with the same `clustalJobId` and a
populated `simpleJobId` — never a FINISHED envelope. -/
theorem C1_alignment_finished (env : Env) (state : Json) (token : String) (c : String)
    (hdec : decodeSimpleState token = some state)
    (hstage : isFieldStr state "stage" "alignment" = true)
    (hcid : jsGetField state "clustalJobId" = some (.str c))
    (hfin : getJobStatus c (env (.clustalStatus c)) = .ok "FINISHED") :
    (∃ e log, handleSimplePhylogenyWorkflow env state token = (.error e, log)) ∨
    (∃ p log sid, handleSimplePhylogenyWorkflow env state token = (.ok p, log) ∧
      p.status = .RUNNING ∧ sid ≠ "" ∧
      ∃ t2, p.jobId = some (.str t2) ∧
        ∃ st2, decodeSimpleState t2 = some st2 ∧
          isFieldStr st2 "stage" "tree" = true ∧
          jsGetField st2 "clustalJobId" = some (.str c) ∧
          jsGetField st2 "simpleJobId" = some (.str sid)) := by
  obtain ⟨hwf, htru, hmeth, hver⟩ := decodeSimpleState_facts _ _ hdec
  obtain ⟨fs, hobj⟩ := getField_obj_exists _ _ _ (isFieldStr_to_getField _ _ _ hmeth)
  unfold handleSimplePhylogenyWorkflow
  rw [if_pos hstage]
  dsimp only []
  rw [hcid]
  rw [show jsToString (some (.str c)) = c from rfl]
  simp only [hfin]
  rw [if_pos trivial]
  cases hfa : fetchClustalAlignment (env (.clustalResultFa c)) with
  | error e =>
    simp only [hfa]
    exact Or.inl ⟨e, _, rfl⟩
  | ok alignment =>
    simp only [hfa]
    cases hsub : submitSimplePhylogenyJob (env (.simpleRun
        (if endsWithNl alignment then alignment else alignment ++ "\n"))) with
    | error e =>
      simp only [hsub]
      exact Or.inl ⟨e, _, rfl⟩
    | ok sid =>
      simp only [hsub]
      right
      have hdec2 := nextState_decode state fs sid hobj hwf hmeth hver
      have hfields := nextState_fields (jsSpread state) sid
      refine ⟨_, _, sid, rfl, rfl, submitRun_ok_ne_empty _ _ _ hsub, _, rfl,
        _, hdec2, getField_to_isFieldStr _ _ _ hfields.1, ?_, hfields.2.1⟩
      rw [hfields.2.2, hobj]
      rw [show jsSpread (Json.obj fs) = fs from rfl]
      rw [← hobj]
      exact hcid

theorem C1_alignment_finished_witness :
    (∃ e log, handleSimplePhylogenyWorkflow envW (stateJson .alignment "J1" none)
      (encodeSimpleState .alignment "J1" none) = (.error e, log)) ∨
    (∃ p log sid, handleSimplePhylogenyWorkflow envW (stateJson .alignment "J1" none)
      (encodeSimpleState .alignment "J1" none) = (.ok p, log) ∧
      p.status = .RUNNING ∧ sid ≠ "" ∧
      ∃ t2, p.jobId = some (.str t2) ∧
        ∃ st2, decodeSimpleState t2 = some st2 ∧
          isFieldStr st2 "stage" "tree" = true ∧
          jsGetField st2 "clustalJobId" = some (.str "J1") ∧
          jsGetField st2 "simpleJobId" = some (.str sid)) :=
  C1_alignment_finished envW (stateJson .alignment "J1" none)
    (encodeSimpleState .alignment "J1" none) "J1"
    (decode_encode_state .alignment "J1" none) rfl rfl rfl

/-- C9: every composite token the orchestrator itself encodes satisfies
the state invariant.  (a) The token minted at initial submission (for
any non-clustalo method) decodes to a state with `clustalJobId` present
and `stage = alignment` (hence no `simpleJobId`), satisfying `stateInv`.
(b) Every token emitted as `jobId` by a successful poll over an
invariant-satisfying decoded state again decodes to an
invariant-satisfying state (covering both the alignment-to-tree
transition, which mints a new token, and the echoed token). -/
theorem C9_state_invariant :
    (∀ (env : Env) (seqs : List String) (method : Option Json)
        (p : SubmitPayload) (log : List Request),
      normalizeMethod method = PhyloMethod.simple_phylogeny →
      handler env (some seqs) none method = (.accepted p, log) →
      ∃ st, decodeSimpleState p.jobId = some st ∧ stateInv st ∧
        isFieldStr st "stage" "alignment" = true) ∧
    (∀ (env : Env) (state : Json) (token t2 : String)
        (p : ProgressEnvelope) (log : List Request),
      decodeSimpleState token = some state →
      stateInv state →
      handleSimplePhylogenyWorkflow env state token = (.ok p, log) →
      p.jobId = some (.str t2) →
      ∃ st2, decodeSimpleState t2 = some st2 ∧ stateInv st2) := by
  constructor
  · intro env seqs method p log hm h
    unfold handler at h
    dsimp only [] at h
    by_cases hlen : seqs.length < 2
    · rw [if_pos hlen] at h
      injection h with h1 h2
      injection h1
    · rw [if_neg hlen] at h
      rw [hm] at h
      cases hsub : submitClustalJob (env (.clustalRun
          (if endsWithNl (buildFasta seqs) then buildFasta seqs
           else buildFasta seqs ++ "\n"))) with
      | error e =>
        simp only [hsub] at h
        injection h with h1 h2
        injection h1
      | ok cid =>
        simp only [hsub] at h
        injection h with h1 h2
        injection h1 with h3
        refine ⟨stateJson .alignment cid none, ?_, ⟨?_, ?_⟩, ?_⟩
        · rw [← h3]
          exact decode_encode_state .alignment cid none
        · rw [stateJson_clustal]; rfl
        · have hf : isFieldStr (stateJson .alignment cid none) "stage" "tree" = false := by
            unfold isFieldStr
            rw [stateJson_stage]
            rfl
          rw [stateJson_simple_none, hf]
          simp
        · exact getField_to_isFieldStr _ _ _ (stateJson_stage .alignment cid none)
  · intro env state token t2 p log hdec hinv hrun hjob
    unfold handleSimplePhylogenyWorkflow at hrun
    by_cases hal : isFieldStr state "stage" "alignment" = true
    · rw [if_pos hal] at hrun
      dsimp only [] at hrun
      obtain ⟨hwf, htru, hmeth, hver⟩ := decodeSimpleState_facts _ _ hdec
      obtain ⟨fs, hobj⟩ := getField_obj_exists _ _ _ (isFieldStr_to_getField _ _ _ hmeth)
      split at hrun
      · injection hrun with h1 h2
        injection h1
      · split at hrun
        · -- FINISHED: the alignment-to-tree transition
          split at hrun
          · injection hrun with h1 h2
            injection h1
          · split at hrun
            · injection hrun with h1 h2
              injection h1
            · rename_i sid hsub
              injection hrun with h1 h2
              injection h1 with h3
              rw [← h3] at hjob
              injection hjob with h4
              injection h4 with h5
              have hdec2 := nextState_decode state fs sid hobj hwf hmeth hver
              rw [h5] at hdec2
              refine ⟨_, hdec2, ?_, ?_⟩
              · have hfields := nextState_fields (jsSpread state) sid
                have h7 : jsGetField (Json.obj (jsSpread state)) "clustalJobId" =
                    jsGetField state "clustalJobId" := by
                  rw [hobj]
                  rfl
                rw [hfields.2.2, h7]
                exact hinv.1
              · have hfields := nextState_fields (jsSpread state) sid
                have h8 := getField_to_isFieldStr _ _ _ hfields.1
                rw [hfields.2.1, h8]
                simp
        · split at hrun
          · -- RUNNING / PENDING: the token is echoed
            injection hrun with h1 h2
            injection h1 with h3
            rw [← h3] at hjob
            injection hjob with h4
            injection h4 with h5
            rw [← h5]
            exact ⟨state, hdec, hinv⟩
          · -- FAILURE: no jobId in the envelope
            injection hrun with h1 h2
            injection h1 with h3
            rw [← h3] at hjob
            injection hjob
    · rw [if_neg hal] at hrun
      by_cases htr : isFieldStr state "stage" "tree" = true
      · rw [if_pos htr] at hrun
        by_cases hfal : jsFalsyField (jsGetField state "simpleJobId") = true
        · rw [if_pos hfal] at hrun
          injection hrun with h1 h2
          injection h1 with h3
          rw [← h3] at hjob
          injection hjob
        · rw [if_neg hfal] at hrun
          dsimp only [] at hrun
          split at hrun
          · injection hrun with h1 h2
            injection h1
          · split at hrun
            · split at hrun
              · injection hrun with h1 h2
                injection h1
              · -- FINISHED: envelope carries the result, no jobId
                injection hrun with h1 h2
                injection h1 with h3
                rw [← h3] at hjob
                injection hjob
            · split at hrun
              · -- RUNNING / PENDING: the token is echoed
                injection hrun with h1 h2
                injection h1 with h3
                rw [← h3] at hjob
                injection hjob with h4
                injection h4 with h5
                rw [← h5]
                exact ⟨state, hdec, hinv⟩
              · injection hrun with h1 h2
                injection h1 with h3
                rw [← h3] at hjob
                injection hjob
      · rw [if_neg htr] at hrun
        injection hrun with h1 h2
        injection h1 with h3
        rw [← h3] at hjob
        injection hjob

theorem C9_state_invariant_witness :
    (∃ st, decodeSimpleState (encodeSimpleState .alignment "J9" none) = some st ∧
        stateInv st ∧ isFieldStr st "stage" "alignment" = true) ∧
    (∃ st2, decodeSimpleState (encodeSimpleState .tree "J9" (some "SP9")) = some st2 ∧
        stateInv st2) := by
  constructor
  · exact C9_state_invariant.1 env9 ["MKT", "MKV"] none
      { jobId := encodeSimpleState .alignment "J9" none, service := "simple_phylogeny",
        stage := "alignment", externalService := "clustalo", externalId := "J9",
        externalUrl := buildResultUrl CLUSTAL_BASE_URL "J9" "fa", alignmentJobId := "J9" }
      [.clustalRun ">seq1\nMKT\n>seq2\nMKV\n"] rfl (by rfl)
  · exact C9_state_invariant.2 env9 (stateJson .alignment "J9" none)
      (encodeSimpleState .alignment "J9" none)
      (encodeSimpleState .tree "J9" (some "SP9")) _ _
      (decode_encode_state .alignment "J9" none) (by unfold stateInv; decide) (by rfl) (by rfl)

/-- C7 counterexample: with `method = "clustalo"` the handler returns
the trimmed remote body verbatim as `jobId`, so when the remote body is
itself a composite token the returned `jobId` *is* a composite token
(`decodeSimpleState` of it is not null), refuting C7's first half as a
claim over every environment. -/
theorem C7_counterexample :
    ∃ p log, handler env7 (some ["MKT", "MKV"]) none (some (.str "clustalo")) =
        (.accepted p, log) ∧ decodeSimpleState p.jobId ≠ none := by
  refine ⟨_, _, by rfl, ?_⟩
  intro h
  have h2 : (some (stateJson .alignment "x" none) : Option Json) = none := by
    rw [← h]
    rfl
  exact Option.noConfusion h2

/-- C7 amended: with at least two sequences, (a) under
`method = "clustalo"` the accepted `jobId` is exactly the trimmed
remote submission body, with no composite encoding applied — so it is a
composite token exactly when the remote body happens to be one (the
handler performs no check); and (b) under any method normalising to
`simple_phylogeny` (absent, unrecognised, or explicit) the accepted
`jobId` always decodes to a version-1 state at `stage = alignment`. -/
theorem C7_amended :
    ∀ (env : Env) (seqs : List String) (method : Option Json)
      (p : SubmitPayload) (log : List Request),
      2 ≤ seqs.length →
      handler env (some seqs) none method = (.accepted p, log) →
      ((normalizeMethod method = PhyloMethod.clustalo →
          p.jobId = jsTrim ((env (.clustalRun
            (if endsWithNl (buildFasta seqs) then buildFasta seqs
             else buildFasta seqs ++ "\n"))).body)) ∧
       (normalizeMethod method = PhyloMethod.simple_phylogeny →
          ∃ c, decodeSimpleState p.jobId = some (stateJson .alignment c none) ∧
            isFieldStr (stateJson .alignment c none) "stage" "alignment" = true)) := by
  intro env seqs method p log hlen h
  unfold handler at h
  dsimp only [] at h
  rw [if_neg (by omega : ¬ seqs.length < 2)] at h
  cases hsub : submitClustalJob (env (.clustalRun
      (if endsWithNl (buildFasta seqs) then buildFasta seqs
       else buildFasta seqs ++ "\n"))) with
  | error e =>
    simp only [hsub] at h
    injection h with h1 h2
    injection h1
  | ok cid =>
    simp only [hsub] at h
    cases hm : normalizeMethod method with
    | clustalo =>
      rw [hm] at h
      injection h with h1 h2
      injection h1 with h3
      constructor
      · intro _
        rw [← h3]
        exact submitRun_ok_trim _ _ _ hsub
      · intro habs
        exact PhyloMethod.noConfusion habs
    | simple_phylogeny =>
      rw [hm] at h
      injection h with h1 h2
      injection h1 with h3
      constructor
      · intro habs
        exact PhyloMethod.noConfusion habs
      · intro _
        refine ⟨cid, ?_, getField_to_isFieldStr _ _ _ (stateJson_stage .alignment cid none)⟩
        rw [← h3]
        exact decode_encode_state .alignment cid none

theorem C7_amended_witness :
    (normalizeMethod (none : Option Json) = PhyloMethod.clustalo →
       (encodeSimpleState .alignment "J9" none) = jsTrim ((env9 (.clustalRun
         (if endsWithNl (buildFasta ["MKT", "MKV"]) then buildFasta ["MKT", "MKV"]
          else buildFasta ["MKT", "MKV"] ++ "\n"))).body)) ∧
    (normalizeMethod (none : Option Json) = PhyloMethod.simple_phylogeny →
       ∃ c, decodeSimpleState (encodeSimpleState .alignment "J9" none) =
           some (stateJson .alignment c none) ∧
         isFieldStr (stateJson .alignment c none) "stage" "alignment" = true) :=
  C7_amended env9 ["MKT", "MKV"] none
    { jobId := encodeSimpleState .alignment "J9" none, service := "simple_phylogeny",
      stage := "alignment", externalService := "clustalo", externalId := "J9",
      externalUrl := buildResultUrl CLUSTAL_BASE_URL "J9" "fa", alignmentJobId := "J9" }
    [.clustalRun ">seq1\nMKT\n>seq2\nMKV\n"] (by decide) (by rfl)
